import Mathlib

/-!
# Serial-to-SPI harness-test firmware: `mplab/final_15.c` and `test_final.c`

A shallow embedding of the two firmware variants.  The hardware is a record
holding the characters that will still arrive at the UART receiver, the receive
data register, the baud-rate register, the eight chip-select latches
`LATD0..LATD7`, and the trace of observations made so far.  `SPI_Init`,
`SPI_ByteWrite`, `MCP_Init`, `UART_Receive` and `handle_UART_Errors` have the same
text in both files (comments apart) and are embedded once; the two `main`
functions are embedded separately in the namespaces `Final15` and `TestFinal`.

Conventions.
* Bytes are natural numbers.  No arithmetic of the program can overflow: the
  largest value computed is the loop counter 16.
* The receive stream lists the characters in the order in which reads of `RCREG`
  take them from the receiver.  An element below 256 is that byte, received
  correctly; an element `w` from 256 on is the byte `w % 256` received with a
  framing error, for which `RCSTAbits.FERR` is set while it waits to be read.
* `UART_Receive` blocks while no character is waiting.  On a finite receive
  stream the program therefore ends up blocked in `UART_Receive`; this is the
  outcome `Stop.stall`.
* The busy-waits on `SSPSTATbits.BF` concern a hardware flag that is not part of
  the state; the SPI transfer is taken to complete.  The overrun branch of
  `handle_UART_Errors` only toggles `RCSTAbits.CREN`, which is not part of the
  state either, and does not touch `RCREG`.
* `while` loops carry a fuel argument; running out of fuel is the outcome
  `Stop.fuel`, distinct from every behaviour of the program.
-/

namespace Harness

/-! ## Constants (lines 4-12 of both files) -/

abbrev FREQ : Nat := 8000000
abbrev BAUD : Nat := 4800
abbrev MY_UBRR : Nat := (FREQ / 16 / BAUD) - 1

abbrev IODIRA : Nat := 0x00
abbrev IODIRB : Nat := 0x01
abbrev GPIOA : Nat := 0x12
abbrev GPIOB : Nat := 0x13

/-! ## Hardware state -/

/-- The eight select latches; `true` is high (chip deselected), `false` is low
(chip selected). -/
structure LATD where
  LATD0 : Bool
  LATD1 : Bool
  LATD2 : Bool
  LATD3 : Bool
  LATD4 : Bool
  LATD5 : Bool
  LATD6 : Bool
  LATD7 : Bool
  deriving DecidableEq, Repr

/-- The levels of the eight lines, line 0 first. -/
def LATD.lines (l : LATD) : List Bool :=
  [l.LATD0, l.LATD1, l.LATD2, l.LATD3, l.LATD4, l.LATD5, l.LATD6, l.LATD7]

/-- Number of lines that are low (asserted). -/
def LATD.lowCount (l : LATD) : Nat := l.lines.count false

/-- All eight lines high (every chip deselected). -/
def LATD.allHigh (l : LATD) : Bool := l.lines.all (fun b => b)

/-- Level of line `n` (lines that do not exist read as high). -/
def LATD.level (l : LATD) (n : Nat) : Bool := l.lines.getD n true

/-- The assignment `LATDbits.LATDn = v`. -/
def LATD.assign (l : LATD) (n : Nat) (v : Bool) : LATD :=
  match n with
  | 0 => { l with LATD0 := v }
  | 1 => { l with LATD1 := v }
  | 2 => { l with LATD2 := v }
  | 3 => { l with LATD3 := v }
  | 4 => { l with LATD4 := v }
  | 5 => { l with LATD5 := v }
  | 6 => { l with LATD6 := v }
  | 7 => { l with LATD7 := v }
  | _ => l

/-- What can be observed of a run. -/
inductive Event where
  /-- `UART_Receive` returned this byte. -/
  | recv (byte : Nat)
  /-- Entry into `SPI_ByteWrite` with these arguments. -/
  | call (chipSelect opcode addr data : Nat)
  /-- The assignment `LATDbits.LATDline = level`. -/
  | lat (line : Nat) (level : Bool)
  /-- The assignment `SSPBUF = byte`, which starts an SPI transfer. -/
  | sspbuf (byte : Nat)
  /-- Return from `SPI_ByteWrite`. -/
  | ret
  /-- The assignment `data[index] = value` in `main`. -/
  | store (index value : Nat)
  /-- A read of `data[index]` in `main`, which gave `value`. -/
  | load (index value : Nat)
  deriving DecidableEq, Repr

/-- An event together with the levels of the select lines right after it. -/
structure Obs where
  ev : Event
  lines : LATD
  deriving DecidableEq, Repr

structure HW where
  /-- Characters that will still arrive at the receiver, next one first: a value
  below 256 is a byte received correctly, a value `w` from 256 on is the byte
  `w % 256` received with a framing error. -/
  rx : List Nat
  /-- Baud-rate generator register (8 bits). -/
  SPBRG : Nat
  latd : LATD
  trace : List Obs
  /-- Receive data register: the byte that the last read of it delivered. -/
  RCREG : Nat
  deriving DecidableEq, Repr

/-- Why a computation did not run to its end. -/
inductive Stop where
  /-- Blocked for ever in `UART_Receive`: the receive stream is exhausted. -/
  | stall
  /-- An access to `data` outside the array. -/
  | fault
  /-- The fuel of a `while` loop ran out. -/
  | fuel
  deriving DecidableEq, Repr

inductive Res (α : Type) where
  | ok (a : α) (hw : HW)
  | stop (why : Stop) (hw : HW)

/-- Sequencing: the continuation runs only after a normal end. -/
def Res.bind {α β : Type} (r : Res α) (f : α → HW → Res β) : Res β :=
  match r with
  | .ok a hw => f a hw
  | .stop why hw => .stop why hw

/-- The hardware state in which the computation ended or stopped. -/
def Res.hw {α : Type} : Res α → HW
  | .ok _ hw => hw
  | .stop _ hw => hw

/-- The reason for stopping, if the computation stopped. -/
def Res.why {α : Type} : Res α → Option Stop
  | .ok _ _ => none
  | .stop why _ => some why

/-- Append an event to the trace, with the current line levels. -/
def log (e : Event) (hw : HW) : HW :=
  { hw with trace := hw.trace ++ [⟨e, hw.latd⟩] }

/-- The statement `LATDbits.LATDn = v`. -/
def writeLATD (n : Nat) (v : Bool) (hw : HW) : HW :=
  log (.lat n v) { hw with latd := hw.latd.assign n v }

/-- The statement `SSPBUF = b; while (!SSPSTATbits.BF);`. -/
def writeSSPBUF (b : Nat) (hw : HW) : HW :=
  log (.sspbuf b) hw

/-! ## Peripheral functions -/

/-- `UART_Init` (lines 25-44): programs the baud-rate register; the other
assignments configure oscillator, mode bits and pin directions. -/
def UART_Init (hw : HW) : HW :=
  let ubrr := MY_UBRR
  { hw with SPBRG := ubrr % 256 }

/-- `SPI_Init` (lines 47-75): after the mode and pin-direction bits, drives the
eight select lines high. -/
def SPI_Init (hw : HW) : HW :=
  let hw := writeLATD 0 true hw
  let hw := writeLATD 1 true hw
  let hw := writeLATD 2 true hw
  let hw := writeLATD 3 true hw
  let hw := writeLATD 4 true hw
  let hw := writeLATD 5 true hw
  let hw := writeLATD 6 true hw
  let hw := writeLATD 7 true hw
  hw

/-- The `switch (chipSelect)` of `SPI_ByteWrite` (lines 90-99); there is no
`default` case. -/
def selectChip (chipSelect : Nat) (hw : HW) : HW :=
  match chipSelect with
  | 0 => writeLATD 0 false hw
  | 1 => writeLATD 1 false hw
  | 2 => writeLATD 2 false hw
  | 3 => writeLATD 3 false hw
  | 4 => writeLATD 4 false hw
  | 5 => writeLATD 5 false hw
  | 6 => writeLATD 6 false hw
  | 7 => writeLATD 7 false hw
  | _ => hw

/-- `SPI_ByteWrite` (lines 78-122). -/
def SPI_ByteWrite (chipSelect opcode addr data : Nat) (hw : HW) : HW :=
  let hw := log (.call chipSelect opcode addr data) hw
  let hw := writeLATD 0 true hw
  let hw := writeLATD 1 true hw
  let hw := writeLATD 2 true hw
  let hw := writeLATD 3 true hw
  let hw := writeLATD 4 true hw
  let hw := writeLATD 5 true hw
  let hw := writeLATD 6 true hw
  let hw := writeLATD 7 true hw
  let hw := selectChip chipSelect hw
  let hw := writeSSPBUF opcode hw
  let hw := writeSSPBUF addr hw
  let hw := writeSSPBUF data hw
  let hw := writeLATD 0 true hw
  let hw := writeLATD 1 true hw
  let hw := writeLATD 2 true hw
  let hw := writeLATD 3 true hw
  let hw := writeLATD 4 true hw
  let hw := writeLATD 5 true hw
  let hw := writeLATD 6 true hw
  let hw := writeLATD 7 true hw
  log .ret hw

/-- `MCP_Init` (lines 125-152). -/
def MCP_Init (hw : HW) : HW :=
  let opcode := 0x40
  let hw := SPI_ByteWrite 0 opcode IODIRA 0x00 hw
  let hw := SPI_ByteWrite 0 opcode IODIRB 0x00 hw
  let hw := SPI_ByteWrite 1 opcode IODIRA 0x00 hw
  let hw := SPI_ByteWrite 1 opcode IODIRB 0x00 hw
  let hw := SPI_ByteWrite 2 opcode IODIRA 0x00 hw
  let hw := SPI_ByteWrite 2 opcode IODIRB 0x00 hw
  let hw := SPI_ByteWrite 3 opcode IODIRA 0x00 hw
  let hw := SPI_ByteWrite 3 opcode IODIRB 0x00 hw
  let hw := SPI_ByteWrite 4 opcode IODIRA 0x00 hw
  let hw := SPI_ByteWrite 4 opcode IODIRB 0x00 hw
  let hw := SPI_ByteWrite 5 opcode IODIRA 0x00 hw
  let hw := SPI_ByteWrite 5 opcode IODIRB 0x00 hw
  let hw := SPI_ByteWrite 6 opcode IODIRA 0x00 hw
  let hw := SPI_ByteWrite 6 opcode IODIRB 0x00 hw
  let hw := SPI_ByteWrite 7 opcode IODIRA 0x00 hw
  let hw := SPI_ByteWrite 7 opcode IODIRB 0x00 hw
  hw

/-- The flag `PIR1bits.RCIF`: a character is waiting in the receiver. -/
def RCIF (hw : HW) : Bool :=
  !hw.rx.isEmpty

/-- The flag `RCSTAbits.FERR`: the character waiting in the receiver was received
with a framing error. -/
def FERR (hw : HW) : Bool :=
  match hw.rx with
  | [] => false
  | w :: _ => decide (256 ≤ w)

/-- A read of `RCREG`: it delivers the byte of the character waiting in the
receiver and takes that character out of the receiver; when no character is
waiting, the register still holds the byte delivered by the last read. -/
def readRCREG (hw : HW) : Nat × HW :=
  match hw.rx with
  | [] => (hw.RCREG, hw)
  | w :: rest => (w % 256, { hw with rx := rest, RCREG := w % 256 })

/-- `handle_UART_Errors` (lines 168-177): on a framing error `RCREG` is read once
and the value dropped.  (On an overrun the function toggles `RCSTAbits.CREN`,
which is not part of the state.) -/
def handle_UART_Errors (hw : HW) : HW :=
  if FERR hw then
    let dummy := readRCREG hw
    dummy.2
  else hw

/-- `UART_Receive` (lines 161-165): blocks until a character is waiting, runs
`handle_UART_Errors`, then returns what a read of `RCREG` delivers. -/
def UART_Receive (hw : HW) : Res Nat :=
  if RCIF hw then
    let hw := handle_UART_Errors hw
    let r := readRCREG hw
    .ok r.1 (log (.recv r.1) r.2)
  else .stop .stall hw

/-! ## The array `data` of `main` -/

/-- Contents of the local array `data`; it is not initialised, so a run starts
from arbitrary contents. -/
abbrev Buf := Nat → Nat

/-- The assignment `data[i] = v` for an array of `size` elements. -/
def storeData (size : Nat) (data : Buf) (i v : Nat) (hw : HW) : Res Buf :=
  if i < size then .ok (fun j => if j = i then v else data j) (log (.store i v) hw)
  else .stop .fault hw

/-- A read of `data[i]` for an array of `size` elements. -/
def loadData (size : Nat) (data : Buf) (i : Nat) (hw : HW) : Res Nat :=
  if i < size then .ok (data i) (log (.load i (data i)) hw)
  else .stop .fault hw

/-! ## Projections of the trace -/

/-- The `SPI_ByteWrite` calls of a trace, in order, as
`(chipSelect, opcode, addr, data)`. -/
def calls (t : List Obs) : List (Nat × Nat × Nat × Nat) :=
  t.filterMap fun ob =>
    match ob.ev with
    | .call c o a d => some (c, o, a, d)
    | _ => none

/-- The calls that write a data register (`GPIOA` or `GPIOB`). -/
def dataWrites (t : List Obs) : List (Nat × Nat × Nat × Nat) :=
  (calls t).filter fun w => w.2.2.1 = GPIOA ∨ w.2.2.1 = GPIOB

/-- The bytes received, in order. -/
def received (t : List Obs) : List Nat :=
  t.filterMap fun ob =>
    match ob.ev with
    | .recv b => some b
    | _ => none

/-- The bytes loaded into `SSPBUF`, in order. -/
def spiBytes (t : List Obs) : List Nat :=
  t.filterMap fun ob =>
    match ob.ev with
    | .sspbuf b => some b
    | _ => none

/-- The sixteen calls of one dispatch of the payload `p`. -/
def payloadWrites (p : Nat → Nat) : List (Nat × Nat × Nat × Nat) :=
  (List.range 8).flatMap fun k =>
    [(k, 0x40, 0x12, p (2 * k)), (k, 0x40, 0x13, p (2 * k + 1))]

/-! ## `main` of `mplab/final_15.c` (variant A, delimited frames) -/

namespace Final15

/-- Declared size of `data` (line 181). -/
abbrev dataSize : Nat := 18

/-- The loop `while (UART_Receive() != m);` (lines 190 and 198). -/
def awaitByte (m : Nat) : Nat → HW → Res Unit
  | 0, hw => .stop .fuel hw
  | fuel + 1, hw =>
    (UART_Receive hw).bind fun b hw =>
      if b ≠ m then awaitByte m fuel hw else .ok () hw

/-- The loop `for (i = 0; i < 16; i++) data[i] = UART_Receive();` (lines 193-195),
from counter value `i` with `k = 16 - i` iterations to go. -/
def collectLoop : Nat → Nat → Buf → HW → Res Buf
  | 0, _, data, hw => .ok data hw
  | k + 1, i, data, hw =>
    (UART_Receive hw).bind fun b hw =>
      (storeData dataSize data i b hw).bind fun data hw =>
        collectLoop k (i + 1) data hw

/-- The loop `for (i = 0; i < 8; i++) { ... }` (lines 201-204), from counter
value `i` with `k = 8 - i` iterations to go. -/
def dispatchLoop : Nat → Nat → Buf → HW → Res Unit
  | 0, _, _, hw => .ok () hw
  | k + 1, i, data, hw =>
    (loadData dataSize data (i * 2) hw).bind fun a hw =>
      let hw := SPI_ByteWrite i 0x40 GPIOA a hw
      (loadData dataSize data (i * 2 + 1) hw).bind fun b hw =>
        let hw := SPI_ByteWrite i 0x40 GPIOB b hw
        dispatchLoop k (i + 1) data hw

/-- One pass through the body of `while (1)` (lines 189-204). -/
def loopBody (fuel : Nat) (data : Buf) (hw : HW) : Res Buf :=
  (awaitByte 0x7E fuel hw).bind fun _ hw =>
    (collectLoop 16 0 data hw).bind fun data hw =>
      (awaitByte 0x7F fuel hw).bind fun _ hw =>
        (dispatchLoop 8 0 data hw).bind fun _ hw =>
          .ok data hw

/-- The loop `while (1) { ... }` (lines 188-205). -/
def mainLoop : Nat → Buf → HW → Res Unit
  | 0, _, hw => .stop .fuel hw
  | fuel + 1, data, hw =>
    (loopBody (fuel + 1) data hw).bind fun data hw => mainLoop fuel data hw

/-- `main` (lines 180-206), started with `data` holding `data0`. -/
def main (fuel : Nat) (data0 : Buf) (hw : HW) : Res Unit :=
  let hw := UART_Init hw
  let hw := SPI_Init hw
  let hw := MCP_Init hw
  mainLoop fuel data0 hw

end Final15

/-! ## `main` of `test_final.c` (variant B, undelimited blocks) -/

namespace TestFinal

/-- Declared size of `data` (line 190). -/
abbrev dataSize : Nat := 16

/-- The loop `for (i = 0; i < 16; i++) data[i] = UART_Receive();` (lines 199-201),
from counter value `i` with `k = 16 - i` iterations to go. -/
def collectLoop : Nat → Nat → Buf → HW → Res Buf
  | 0, _, data, hw => .ok data hw
  | k + 1, i, data, hw =>
    (UART_Receive hw).bind fun b hw =>
      (storeData dataSize data i b hw).bind fun data hw =>
        collectLoop k (i + 1) data hw

/-- The loop `for (i = 0; i < 8; i++) { ... }` (lines 204-207), from counter
value `i` with `k = 8 - i` iterations to go. -/
def dispatchLoop : Nat → Nat → Buf → HW → Res Unit
  | 0, _, _, hw => .ok () hw
  | k + 1, i, data, hw =>
    (loadData dataSize data (2 * i) hw).bind fun a hw =>
      let hw := SPI_ByteWrite i 0x40 GPIOA a hw
      (loadData dataSize data (2 * i + 1) hw).bind fun b hw =>
        let hw := SPI_ByteWrite i 0x40 GPIOB b hw
        dispatchLoop k (i + 1) data hw

/-- One pass through the body of `while (1)` (lines 198-207). -/
def loopBody (data : Buf) (hw : HW) : Res Buf :=
  (collectLoop 16 0 data hw).bind fun data hw =>
    (dispatchLoop 8 0 data hw).bind fun _ hw =>
      .ok data hw

/-- The loop `while (1) { ... }` (lines 197-208). -/
def mainLoop : Nat → Buf → HW → Res Unit
  | 0, _, hw => .stop .fuel hw
  | fuel + 1, data, hw =>
    (loopBody data hw).bind fun data hw => mainLoop fuel data hw

/-- `main` (lines 189-209), started with `data` holding `data0`. -/
def main (fuel : Nat) (data0 : Buf) (hw : HW) : Res Unit :=
  let hw := UART_Init hw
  let hw := SPI_Init hw
  let hw := MCP_Init hw
  mainLoop fuel data0 hw

end TestFinal

/-! ## Auxiliary definitions for the proofs -/

/-- The select lines with every line high. -/
def idle : LATD := ⟨true, true, true, true, true, true, true, true⟩

/-- The observations that `SPI_ByteWrite` adds when entered with line levels `l`. -/
def writeObs (c o a d : Nat) (l : LATD) : List Obs :=
  (SPI_ByteWrite c o a d ⟨[], 0, l, [], 0⟩).trace

/-- The array after storing the bytes `bs` at the indices `i, i+1, ...`. -/
def fill (data : Buf) (i : Nat) : List Nat → Buf
  | [] => data
  | b :: bs => fill (fun j => if j = i then b else data j) (i + 1) bs

/-- A state at power-on: nothing has been observed or read yet; the receive
stream, the baud-rate register and the select latches are arbitrary. -/
def powerOn (rx : List Nat) (spbrg : Nat) (latd : LATD) : HW :=
  ⟨rx, spbrg, latd, [], 0⟩

/-- Every character of the stream is received without framing error. -/
def Clean (ws : List Nat) : Prop :=
  ∀ w ∈ ws, w < 256

/-- The bytes that successive calls of `UART_Receive` return on the receive
stream `ws`: a character with a framing error is dropped and the byte of the
character after it is returned, whether or not that one has a framing error; when
no character follows, the dropped byte itself is returned. -/
def seen : List Nat → List Nat
  | [] => []
  | [w] => [w % 256]
  | w :: w2 :: rest => if 256 ≤ w then w2 % 256 :: seen rest else w % 256 :: seen (w2 :: rest)

/-- The sixteen calls of `MCP_Init`. -/
def initWrites : List (Nat × Nat × Nat × Nat) :=
  [(0, 0x40, 0x00, 0x00), (0, 0x40, 0x01, 0x00), (1, 0x40, 0x00, 0x00), (1, 0x40, 0x01, 0x00),
   (2, 0x40, 0x00, 0x00), (2, 0x40, 0x01, 0x00), (3, 0x40, 0x00, 0x00), (3, 0x40, 0x01, 0x00),
   (4, 0x40, 0x00, 0x00), (4, 0x40, 0x01, 0x00), (5, 0x40, 0x00, 0x00), (5, 0x40, 0x01, 0x00),
   (6, 0x40, 0x00, 0x00), (6, 0x40, 0x01, 0x00), (7, 0x40, 0x00, 0x00), (7, 0x40, 0x01, 0x00)]

/-- A receive stream without a complete frame of variant A: no start marker, or
fewer than sixteen bytes after the first start marker, or no end marker after
the sixteen bytes that follow the first start marker. -/
def NoFrame (rx : List Nat) : Prop :=
  0x7E ∉ rx ∨ ∃ J R, rx = J ++ 0x7E :: R ∧ 0x7E ∉ J ∧ (R.length < 16 ∨ 0x7F ∉ R.drop 16)

/-- A frame of variant A as it passes the receiver: junk before the start
marker, the sixteen payload bytes, junk before the end marker. -/
structure Envelope where
  junk : List Nat
  payload : List Nat
  gap : List Nat

/-- The bytes of an envelope on the wire. -/
def Envelope.bytes (f : Envelope) : List Nat :=
  f.junk ++ 0x7E :: (f.payload ++ (f.gap ++ [0x7F]))

/-- Well-formedness: no start marker in the junk, sixteen payload bytes, no end
marker in the gap. -/
def Envelope.wf (f : Envelope) : Prop :=
  0x7E ∉ f.junk ∧ f.payload.length = 16 ∧ 0x7F ∉ f.gap

/-- Entry into and return from `SPI_ByteWrite`. -/
def Event.isBoundary : Event → Bool
  | .call _ _ _ _ => true
  | .ret => true
  | _ => false

/-- At most one select line is low, and all lines are high if the observation is
the entry into or the return from `SPI_ByteWrite`. -/
def Obs.exclusive (ob : Obs) : Prop :=
  ob.lines.lowCount ≤ 1 ∧ (ob.ev.isBoundary = true → ob.lines.allHigh = true)

/-- From `hw0` the run has reached `s`: the lines are idle, and what has been
observed since `hw0` respects the select discipline. -/
def Grows (hw0 s : HW) : Prop :=
  s.latd = idle ∧ ∃ ext, s.trace = hw0.trace ++ ext ∧ ∀ ob ∈ ext, ob.exclusive

/-- The select discipline at an observation, as a computable check. -/
def Obs.exclusiveB (ob : Obs) : Bool :=
  decide (ob.lines.lowCount ≤ 1) && (!ob.ev.isBoundary || ob.lines.allHigh)

/-- Since `hw0` the computation has either stopped without a new observation, or
its first new observation is a received byte; the select lines are idle. -/
def FirstRecv (hw0 : HW) {α : Type} (r : Res α) : Prop :=
  r.hw.latd = idle ∧
    ((r.why ≠ none ∧ r.hw.trace = hw0.trace) ∨
      ∃ b ls ext, r.hw.trace = hw0.trace ++ (⟨.recv b, ls⟩ : Obs) :: ext)

/-- A property of the hardware state that every step of `main` preserves, given
that the array indices stay below 16 and the chip indices below 8. -/
structure Preserved (R : HW → Prop) : Prop where
  recv : ∀ (s : HW) (b : Nat) (rest : List Nat) (rc : Nat), R s →
    R (log (.recv b) { s with rx := rest, RCREG := rc })
  store : ∀ (s : HW) (i v : Nat), i < 16 → R s → R (log (.store i v) s)
  load : ∀ (s : HW) (i v : Nat), i < 16 → R s → R (log (.load i v) s)
  write : ∀ (s : HW) (c o a d : Nat), c < 8 → R s → R (SPI_ByteWrite c o a d s)

/-- The computation ended or stopped in a state with property `R`, and it did
not stop on an access outside the array. -/
def Kept (R : HW → Prop) {α : Type} (r : Res α) : Prop :=
  R r.hw ∧ r.why ≠ some .fault

/-- The stores into `data` of a trace, in order, as `(index, value)`. -/
def stores (t : List Obs) : List (Nat × Nat) :=
  t.filterMap fun ob =>
    match ob.ev with
    | .store i v => some (i, v)
    | _ => none

/-- The reads of `data` of a trace, in order, as `(index, value)`. -/
def loads (t : List Obs) : List (Nat × Nat) :=
  t.filterMap fun ob =>
    match ob.ev with
    | .load i v => some (i, v)
    | _ => none

/-- An access to `data` is at an index below 16, and a call of `SPI_ByteWrite` has
a chip index below 8. -/
def Obs.inBounds (ob : Obs) : Prop :=
  match ob.ev with
  | .store i _ => i < 16
  | .load i _ => i < 16
  | .call c _ _ _ => c < 8
  | _ => True

/-- Every observation made so far is within bounds. -/
def AllInBounds (s : HW) : Prop :=
  ∀ ob ∈ s.trace, ob.inBounds

/-- Two states that differ at most in how the receiver presents the same bytes:
the stream of the second lists, each received correctly, the bytes that
`UART_Receive` returns on the stream of the first; select lines and trace agree. -/
def Sim (a b : HW) : Prop :=
  b.rx = seen a.rx ∧ b.latd = a.latd ∧ b.trace = a.trace

/-- Two computations that end or stop in the same way, with the same value, in
states related by `Sim`. -/
def SimRes {α : Type} (r1 r2 : Res α) : Prop :=
  match r1, r2 with
  | .ok x a, .ok y b => x = y ∧ Sim a b
  | .stop w a, .stop v b => w = v ∧ Sim a b
  | _, _ => False

/-! ## Basic facts about the hardware primitives -/

@[simp] theorem log_rx (e : Event) (hw : HW) : (log e hw).rx = hw.rx := rfl
@[simp] theorem log_SPBRG (e : Event) (hw : HW) : (log e hw).SPBRG = hw.SPBRG := rfl
@[simp] theorem log_latd (e : Event) (hw : HW) : (log e hw).latd = hw.latd := rfl
@[simp] theorem log_trace (e : Event) (hw : HW) :
    (log e hw).trace = hw.trace ++ [⟨e, hw.latd⟩] := rfl

@[simp] theorem writeLATD_rx (n : Nat) (v : Bool) (hw : HW) : (writeLATD n v hw).rx = hw.rx := rfl
@[simp] theorem writeLATD_SPBRG (n : Nat) (v : Bool) (hw : HW) :
    (writeLATD n v hw).SPBRG = hw.SPBRG := rfl
@[simp] theorem writeLATD_latd (n : Nat) (v : Bool) (hw : HW) :
    (writeLATD n v hw).latd = hw.latd.assign n v := rfl
@[simp] theorem writeLATD_trace (n : Nat) (v : Bool) (hw : HW) :
    (writeLATD n v hw).trace = hw.trace ++ [⟨.lat n v, hw.latd.assign n v⟩] := rfl

@[simp] theorem writeSSPBUF_rx (b : Nat) (hw : HW) : (writeSSPBUF b hw).rx = hw.rx := rfl
@[simp] theorem writeSSPBUF_SPBRG (b : Nat) (hw : HW) : (writeSSPBUF b hw).SPBRG = hw.SPBRG := rfl
@[simp] theorem writeSSPBUF_latd (b : Nat) (hw : HW) : (writeSSPBUF b hw).latd = hw.latd := rfl
@[simp] theorem writeSSPBUF_trace (b : Nat) (hw : HW) :
    (writeSSPBUF b hw).trace = hw.trace ++ [⟨.sspbuf b, hw.latd⟩] := rfl

theorem selectChip_rx (c : Nat) (hw : HW) : (selectChip c hw).rx = hw.rx := by
  unfold selectChip; split <;> rfl

theorem selectChip_SPBRG (c : Nat) (hw : HW) : (selectChip c hw).SPBRG = hw.SPBRG := by
  unfold selectChip; split <;> rfl

theorem selectChip_latd (c : Nat) (hw : HW) :
    (selectChip c hw).latd = hw.latd.assign c false := by
  unfold selectChip LATD.assign; split <;> rfl

theorem selectChip_trace (c : Nat) (hw : HW) :
    (selectChip c hw).trace =
      hw.trace ++ (if c < 8 then [⟨.lat c false, hw.latd.assign c false⟩] else []) := by
  rcases c with _ | _ | _ | _ | _ | _ | _ | _ | c <;> simp [selectChip]

theorem SPI_ByteWrite_trace (c o a d : Nat) (hw : HW) :
    (SPI_ByteWrite c o a d hw).trace = hw.trace ++ writeObs c o a d hw.latd := by
  simp [SPI_ByteWrite, writeObs, selectChip_trace, selectChip_latd, List.append_assoc]

theorem SPI_ByteWrite_rx (c o a d : Nat) (hw : HW) : (SPI_ByteWrite c o a d hw).rx = hw.rx := by
  simp [SPI_ByteWrite, selectChip_rx]

theorem SPI_ByteWrite_SPBRG (c o a d : Nat) (hw : HW) :
    (SPI_ByteWrite c o a d hw).SPBRG = hw.SPBRG := by
  simp [SPI_ByteWrite, selectChip_SPBRG]

theorem SPI_ByteWrite_latd (c o a d : Nat) (hw : HW) :
    (SPI_ByteWrite c o a d hw).latd = idle := by
  simp [SPI_ByteWrite, selectChip_latd, LATD.assign, idle]



/-! ## Facts about the projections of the trace -/

@[simp] theorem calls_nil : calls [] = [] := rfl

@[simp] theorem calls_append (s t : List Obs) : calls (s ++ t) = calls s ++ calls t := by
  simp [calls, List.filterMap_append]

@[simp] theorem received_nil : received [] = [] := rfl

@[simp] theorem received_append (s t : List Obs) :
    received (s ++ t) = received s ++ received t := by
  simp [received, List.filterMap_append]

@[simp] theorem dataWrites_append_calls (s t : List Obs) :
    dataWrites (s ++ t) = dataWrites s ++ dataWrites t := by
  simp [dataWrites]

theorem calls_writeObs (c o a d : Nat) (l : LATD) : calls (writeObs c o a d l) = [(c, o, a, d)] := by
  by_cases h : c < 8 <;>
    simp [writeObs, SPI_ByteWrite, selectChip_trace, selectChip_latd, calls, h]

theorem received_writeObs (c o a d : Nat) (l : LATD) : received (writeObs c o a d l) = [] := by
  by_cases h : c < 8 <;>
    simp [writeObs, SPI_ByteWrite, selectChip_trace, selectChip_latd, received, h]

theorem spiBytes_writeObs (c o a d : Nat) (l : LATD) : spiBytes (writeObs c o a d l) = [o, a, d] := by
  by_cases h : c < 8 <;>
    simp [writeObs, SPI_ByteWrite, selectChip_trace, selectChip_latd, spiBytes, h]

theorem calls_SPI_ByteWrite (c o a d : Nat) (hw : HW) :
    calls (SPI_ByteWrite c o a d hw).trace = calls hw.trace ++ [(c, o, a, d)] := by
  rw [SPI_ByteWrite_trace, calls_append, calls_writeObs]

@[simp] theorem calls_cons_recv (b : Nat) (l : LATD) (t : List Obs) :
    calls (⟨.recv b, l⟩ :: t) = calls t := rfl

@[simp] theorem calls_cons_call (c o a d : Nat) (l : LATD) (t : List Obs) :
    calls (⟨.call c o a d, l⟩ :: t) = (c, o, a, d) :: calls t := rfl

@[simp] theorem calls_cons_lat (n : Nat) (v : Bool) (l : LATD) (t : List Obs) :
    calls (⟨.lat n v, l⟩ :: t) = calls t := rfl

@[simp] theorem calls_cons_sspbuf (b : Nat) (l : LATD) (t : List Obs) :
    calls (⟨.sspbuf b, l⟩ :: t) = calls t := rfl

@[simp] theorem calls_cons_ret (l : LATD) (t : List Obs) :
    calls (⟨.ret, l⟩ :: t) = calls t := rfl

@[simp] theorem calls_cons_store (i v : Nat) (l : LATD) (t : List Obs) :
    calls (⟨.store i v, l⟩ :: t) = calls t := rfl

@[simp] theorem calls_cons_load (i v : Nat) (l : LATD) (t : List Obs) :
    calls (⟨.load i v, l⟩ :: t) = calls t := rfl

/-! ## Sequencing -/

@[simp] theorem bind_ok {α β : Type} (a : α) (hw : HW) (f : α → HW → Res β) :
    (Res.ok a hw).bind f = f a hw := rfl

@[simp] theorem bind_stop {α β : Type} (w : Stop) (hw : HW) (f : α → HW → Res β) :
    (Res.stop w hw : Res α).bind f = .stop w hw := rfl

/-- A character received correctly is returned and taken out of the receiver. -/
theorem UART_Receive_cons {hw : HW} {b : Nat} {rest : List Nat} (h : hw.rx = b :: rest)
    (hb : b < 256) :
    UART_Receive hw = .ok b (log (.recv b) { hw with rx := rest, RCREG := b }) := by
  have hn : ¬ 256 ≤ b := by omega
  simp [UART_Receive, RCIF, handle_UART_Errors, FERR, readRCREG, h, hn, Nat.mod_eq_of_lt hb]

theorem UART_Receive_nil {hw : HW} (h : hw.rx = []) : UART_Receive hw = .stop .stall hw := by
  simp [UART_Receive, RCIF, h]

/-- On any stream `UART_Receive` either blocks, the stream being empty, or returns
a byte below 256 and leaves a shorter stream; the bytes it returns are those of
`seen`. -/
theorem UART_Receive_cases (hw : HW) :
    (hw.rx = [] ∧ UART_Receive hw = .stop .stall hw) ∨
    ∃ b rest rc, UART_Receive hw = .ok b (log (.recv b) { hw with rx := rest, RCREG := rc }) ∧
      b < 256 ∧ rest.length < hw.rx.length ∧ seen hw.rx = b :: seen rest := by
  rcases hrx : hw.rx with _ | ⟨w, _ | ⟨w2, rest⟩⟩
  · exact Or.inl ⟨rfl, UART_Receive_nil hrx⟩
  · refine Or.inr ⟨w % 256, [], w % 256, ?_, Nat.mod_lt _ (by decide), by simp, by simp [seen]⟩
    by_cases hw256 : 256 ≤ w <;>
      simp [UART_Receive, RCIF, handle_UART_Errors, FERR, readRCREG, hrx, hw256]
  · by_cases hw256 : 256 ≤ w
    · refine Or.inr ⟨w2 % 256, rest, w2 % 256, ?_, Nat.mod_lt _ (by decide),
        by simp only [List.length_cons]; omega, by simp [seen, hw256]⟩
      simp [UART_Receive, RCIF, handle_UART_Errors, FERR, readRCREG, hrx, hw256]
    · refine Or.inr ⟨w % 256, w2 :: rest, w % 256, ?_, Nat.mod_lt _ (by decide),
        by simp only [List.length_cons]; omega, by simp [seen, hw256]⟩
      simp [UART_Receive, RCIF, handle_UART_Errors, FERR, readRCREG, hrx, hw256]

theorem clean_nil : Clean [] := by
  intro w hw
  cases hw

theorem clean_append {xs ys : List Nat} : Clean (xs ++ ys) ↔ Clean xs ∧ Clean ys := by
  simp only [Clean, List.mem_append]
  constructor
  · intro h
    exact ⟨fun w hw => h w (Or.inl hw), fun w hw => h w (Or.inr hw)⟩
  · rintro ⟨h1, h2⟩ w (hw | hw)
    · exact h1 w hw
    · exact h2 w hw

theorem clean_cons {x : Nat} {xs : List Nat} : Clean (x :: xs) ↔ x < 256 ∧ Clean xs := by
  simp [Clean]

theorem clean_take {xs : List Nat} (n : Nat) (h : Clean xs) : Clean (xs.take n) :=
  fun w hw => h w (List.mem_of_mem_take hw)

theorem clean_drop {xs : List Nat} (n : Nat) (h : Clean xs) : Clean (xs.drop n) :=
  fun w hw => h w (List.mem_of_mem_drop hw)

/-! ## The wait loops of variant A -/

namespace Final15

/-- Waiting for `m` on a stream in which `m` occurs: everything up to and
including the first `m` is consumed, and no SPI write is made. -/
theorem awaitByte_found (m : Nat) (J rest : List Nat) :
    ∀ (fuel : Nat) (hw : HW), hw.rx = J ++ m :: rest → m ∉ J → J.length < fuel →
      m < 256 → (∀ j ∈ J, j < 256) →
      ∃ hw', awaitByte m fuel hw = .ok () hw' ∧ hw'.rx = rest ∧ hw'.latd = hw.latd ∧
        calls hw'.trace = calls hw.trace := by
  induction J with
  | nil =>
    intro fuel hw hrx _ hf hm256 _
    obtain ⟨n, rfl⟩ : ∃ n, fuel = n + 1 := ⟨fuel - 1, by simp at hf; omega⟩
    simp at hrx
    exact ⟨log (.recv m) { hw with rx := rest, RCREG := m },
      by simp [awaitByte, UART_Receive_cons hrx hm256], rfl, rfl, by simp⟩
  | cons j J ih =>
    intro fuel hw hrx hm hf hm256 hJ
    obtain ⟨n, rfl⟩ : ∃ n, fuel = n + 1 := ⟨fuel - 1, by simp at hf; omega⟩
    simp at hrx hm hf
    have hj : j ≠ m := fun h => hm.1 h.symm
    have hj256 : j < 256 := hJ j (List.mem_cons_self _ _)
    obtain ⟨hw', h1, h2, h3, h4⟩ :=
      ih n (log (.recv j) { hw with rx := J ++ m :: rest, RCREG := j }) rfl hm.2 hf hm256
        (fun x hx => hJ x (List.mem_cons_of_mem _ hx))
    refine ⟨hw', ?_, h2, by simpa using h3, by simpa using h4⟩
    simp [awaitByte, UART_Receive_cons hrx hj256, hj, h1]

/-- Waiting for `m` on a stream in which `m` does not occur blocks for ever, and
no SPI write is made. -/
theorem awaitByte_absent (m : Nat) :
    ∀ (rx : List Nat) (fuel : Nat) (hw : HW), hw.rx = rx → m ∉ rx → rx.length < fuel →
      (∀ j ∈ rx, j < 256) →
      ∃ hw', awaitByte m fuel hw = .stop .stall hw' ∧ calls hw'.trace = calls hw.trace := by
  intro rx
  induction rx with
  | nil =>
    intro fuel hw hrx _ hf _
    obtain ⟨n, rfl⟩ : ∃ n, fuel = n + 1 := ⟨fuel - 1, by simp at hf; omega⟩
    exact ⟨hw, by simp [awaitByte, UART_Receive_nil hrx], rfl⟩
  | cons j J ih =>
    intro fuel hw hrx hm hf hJ
    obtain ⟨n, rfl⟩ : ∃ n, fuel = n + 1 := ⟨fuel - 1, by simp at hf; omega⟩
    simp at hm hf
    have hj : j ≠ m := fun h => hm.1 h.symm
    have hj256 : j < 256 := hJ j (List.mem_cons_self _ _)
    obtain ⟨hw', h1, h2⟩ := ih n (log (.recv j) { hw with rx := J, RCREG := j }) rfl hm.2 hf
      (fun x hx => hJ x (List.mem_cons_of_mem _ hx))
    refine ⟨hw', ?_, by simpa using h2⟩
    simp [awaitByte, UART_Receive_cons hrx hj256, hj, h1]


theorem collectLoop_ok (P : List Nat) :
    ∀ (i : Nat) (data : Buf) (hw : HW) (rest : List Nat), hw.rx = P ++ rest →
      i + P.length ≤ dataSize → (∀ b ∈ P, b < 256) →
      ∃ hw', collectLoop P.length i data hw = .ok (fill data i P) hw' ∧ hw'.rx = rest ∧
        hw'.latd = hw.latd ∧ calls hw'.trace = calls hw.trace := by
  induction P with
  | nil =>
    intro i data hw rest hrx _ _
    exact ⟨hw, rfl, by simpa using hrx, rfl, rfl⟩
  | cons b P ih =>
    intro i data hw rest hrx hi hP
    simp at hrx hi
    have hlt : i < dataSize := by omega
    have hb256 : b < 256 := hP b (List.mem_cons_self _ _)
    obtain ⟨hw', h1, h2, h3, h4⟩ :=
      ih (i + 1) (fun j => if j = i then b else data j)
        (log (.store i b) (log (.recv b) { hw with rx := P ++ rest, RCREG := b })) rest rfl
        (by omega) (fun x hx => hP x (List.mem_cons_of_mem _ hx))
    refine ⟨hw', ?_, h2, by simpa using h3, by simpa using h4⟩
    simp [collectLoop, UART_Receive_cons hrx hb256, storeData, hlt, fill, h1]

theorem collectLoop_short :
    ∀ (rx : List Nat) (k i : Nat) (data : Buf) (hw : HW), hw.rx = rx → rx.length < k →
      i + k ≤ dataSize → (∀ b ∈ rx, b < 256) →
      ∃ hw', collectLoop k i data hw = .stop .stall hw' ∧ calls hw'.trace = calls hw.trace := by
  intro rx
  induction rx with
  | nil =>
    intro k i data hw hrx hk _ _
    obtain ⟨n, rfl⟩ : ∃ n, k = n + 1 := ⟨k - 1, by simp at hk; omega⟩
    exact ⟨hw, by simp [collectLoop, UART_Receive_nil hrx], rfl⟩
  | cons b rx ih =>
    intro k i data hw hrx hk hi hR
    obtain ⟨n, rfl⟩ : ∃ n, k = n + 1 := ⟨k - 1, by simp at hk; omega⟩
    simp at hk
    have hlt : i < dataSize := by omega
    have hb256 : b < 256 := hR b (List.mem_cons_self _ _)
    obtain ⟨hw', h1, h2⟩ :=
      ih n (i + 1) (fun j => if j = i then b else data j)
        (log (.store i b) (log (.recv b) { hw with rx := rx, RCREG := b })) rfl hk (by omega)
        (fun x hx => hR x (List.mem_cons_of_mem _ hx))
    refine ⟨hw', ?_, by simpa using h2⟩
    simp [collectLoop, UART_Receive_cons hrx hb256, storeData, hlt, h1]

theorem dispatchLoop_ok :
    ∀ (k i : Nat) (data : Buf) (hw : HW), i + k ≤ 8 →
      ∃ hw', dispatchLoop k i data hw = .ok () hw' ∧ hw'.rx = hw.rx ∧
        (hw.latd = idle → hw'.latd = idle) ∧
        calls hw'.trace = calls hw.trace ++
          (List.range' i k).flatMap fun j =>
            [(j, 0x40, 0x12, data (2 * j)), (j, 0x40, 0x13, data (2 * j + 1))] := by
  intro k
  induction k with
  | zero =>
    intro i data hw _
    exact ⟨hw, rfl, rfl, id, by simp⟩
  | succ k ih =>
    intro i data hw hi
    have h1 : i * 2 < dataSize := by simp only [dataSize]; omega
    have h2 : i * 2 + 1 < dataSize := by simp only [dataSize]; omega
    obtain ⟨hw', e1, e2, e3, e4⟩ :=
      ih (i + 1) data
        (SPI_ByteWrite i 0x40 GPIOB (data (i * 2 + 1))
          (log (.load (i * 2 + 1) (data (i * 2 + 1)))
            (SPI_ByteWrite i 0x40 GPIOA (data (i * 2))
              (log (.load (i * 2) (data (i * 2))) hw)))) (by omega)
    refine ⟨hw', ?_, ?_, ?_, ?_⟩
    · simp [dispatchLoop, loadData, h1, h2, e1]
    · simpa [SPI_ByteWrite_rx] using e2
    · intro _
      exact e3 (SPI_ByteWrite_latd _ _ _ _ _)
    · rw [e4]
      simp [calls_SPI_ByteWrite, List.range'_succ, Nat.mul_comm]

end Final15

theorem payloadWrites_eq (p : Nat → Nat) :
    payloadWrites p =
      [(0, 0x40, 0x12, p 0), (0, 0x40, 0x13, p 1), (1, 0x40, 0x12, p 2), (1, 0x40, 0x13, p 3),
       (2, 0x40, 0x12, p 4), (2, 0x40, 0x13, p 5), (3, 0x40, 0x12, p 6), (3, 0x40, 0x13, p 7),
       (4, 0x40, 0x12, p 8), (4, 0x40, 0x13, p 9), (5, 0x40, 0x12, p 10), (5, 0x40, 0x13, p 11),
       (6, 0x40, 0x12, p 12), (6, 0x40, 0x13, p 13), (7, 0x40, 0x12, p 14),
       (7, 0x40, 0x13, p 15)] := rfl

theorem payloadWrites_congr {p q : Nat → Nat} (h : ∀ j, j < 16 → p j = q j) :
    payloadWrites p = payloadWrites q := by
  simp [payloadWrites_eq, h]

theorem fill_below (P : List Nat) :
    ∀ (i : Nat) (data : Buf) (j : Nat), j < i → fill data i P j = data j := by
  induction P with
  | nil => intro i data j _; rfl
  | cons b P ih =>
    intro i data j hj
    rw [fill, ih (i + 1) _ j (by omega)]
    simp; omega

theorem fill_at (P : List Nat) :
    ∀ (i : Nat) (data : Buf) (n : Nat), n < P.length → fill data i P (i + n) = P.getD n 0 := by
  induction P with
  | nil => intro i data n hn; simp at hn
  | cons b P ih =>
    intro i data n hn
    cases n with
    | zero => simp [fill, fill_below]
    | succ n =>
      have := ih (i + 1) (fun j => if j = i then b else data j) n (by simpa using hn)
      simp only [fill]
      rw [show i + (n + 1) = i + 1 + n by omega, this]
      simp


/-! ## The loops of variant B -/

namespace TestFinal

theorem dispatchLoop_ok_B :
    ∀ (k i : Nat) (data : Buf) (hw : HW), i + k ≤ 8 →
      ∃ hw', dispatchLoop k i data hw = .ok () hw' ∧ hw'.rx = hw.rx ∧
        (hw.latd = idle → hw'.latd = idle) ∧
        calls hw'.trace = calls hw.trace ++
          (List.range' i k).flatMap fun j =>
            [(j, 0x40, 0x12, data (2 * j)), (j, 0x40, 0x13, data (2 * j + 1))] := by
  intro k
  induction k with
  | zero =>
    intro i data hw _
    exact ⟨hw, rfl, rfl, id, by simp⟩
  | succ k ih =>
    intro i data hw hi
    have h1 : 2 * i < dataSize := by simp only [dataSize]; omega
    have h2 : 2 * i + 1 < dataSize := by simp only [dataSize]; omega
    obtain ⟨hw', e1, e2, e3, e4⟩ :=
      ih (i + 1) data
        (SPI_ByteWrite i 0x40 GPIOB (data (2 * i + 1))
          (log (.load (2 * i + 1) (data (2 * i + 1)))
            (SPI_ByteWrite i 0x40 GPIOA (data (2 * i))
              (log (.load (2 * i) (data (2 * i))) hw)))) (by omega)
    refine ⟨hw', ?_, ?_, ?_, ?_⟩
    · simp [dispatchLoop, loadData, h1, h2, e1]
    · simpa [SPI_ByteWrite_rx] using e2
    · intro _
      exact e3 (SPI_ByteWrite_latd _ _ _ _ _)
    · rw [e4]
      simp [calls_SPI_ByteWrite, List.range'_succ]

end TestFinal

theorem MCP_Init_rx (hw : HW) : (MCP_Init hw).rx = hw.rx := by
  simp [MCP_Init, SPI_ByteWrite_rx]

theorem MCP_Init_latd (hw : HW) : (MCP_Init hw).latd = idle := by
  simp [MCP_Init, SPI_ByteWrite_latd]

theorem MCP_Init_calls (hw : HW) : calls (MCP_Init hw).trace = calls hw.trace ++ initWrites := by
  simp [MCP_Init, calls_SPI_ByteWrite, initWrites]

theorem SPI_Init_rx (hw : HW) : (SPI_Init hw).rx = hw.rx := rfl

theorem SPI_Init_latd (hw : HW) : (SPI_Init hw).latd = idle := rfl

theorem SPI_Init_calls (hw : HW) : calls (SPI_Init hw).trace = calls hw.trace := by
  simp [SPI_Init]

theorem UART_Init_rx (hw : HW) : (UART_Init hw).rx = hw.rx := rfl

theorem UART_Init_trace (hw : HW) : (UART_Init hw).trace = hw.trace := rfl

theorem dataWrites_initWrites : initWrites.filter (fun w => w.2.2.1 = GPIOA ∨ w.2.2.1 = GPIOB) = [] := by
  decide

theorem dataWrites_payloadWrites (p : Nat → Nat) :
    (payloadWrites p).filter (fun w => w.2.2.1 = GPIOA ∨ w.2.2.1 = GPIOB) = payloadWrites p := by
  simp [payloadWrites_eq]

namespace Final15

/-- One pass on a stream that starts with a frame: junk without start marker,
start marker, sixteen bytes, junk without end marker, end marker. -/
theorem loopBody_frame (J P G rest : List Nat) (fuel : Nat) (data : Buf) (hw : HW)
    (hrx : hw.rx = J ++ 0x7E :: (P ++ (G ++ 0x7F :: rest)))
    (hJ : 0x7E ∉ J) (hP : P.length = 16) (hG : 0x7F ∉ G)
    (hfJ : J.length < fuel) (hfG : G.length < fuel)
    (hcJ : Clean J) (hcP : Clean P) (hcG : Clean G) :
    ∃ hw', loopBody fuel data hw = .ok (fill data 0 P) hw' ∧ hw'.rx = rest ∧
      (hw.latd = idle → hw'.latd = idle) ∧
      calls hw'.trace = calls hw.trace ++ payloadWrites (fun j => P.getD j 0) := by
  obtain ⟨s1, e1, r1, l1, c1⟩ := awaitByte_found 0x7E J _ fuel hw hrx hJ hfJ (by decide) hcJ
  obtain ⟨s2, e2, r2, l2, c2⟩ := collectLoop_ok P 0 data s1 _ r1 (by simp [hP, dataSize]) hcP
  obtain ⟨s3, e3, r3, l3, c3⟩ := awaitByte_found 0x7F G _ fuel s2 r2 hG hfG (by decide) hcG
  obtain ⟨s4, e4, r4, l4, c4⟩ := dispatchLoop_ok 8 0 (fill data 0 P) s3 (by omega)
  rw [hP] at e2
  refine ⟨s4, ?_, by rw [r4, r3], ?_, ?_⟩
  · simp [loopBody, e1, e2, e3, e4]
  · intro h
    exact l4 (by rw [l3, l2, l1, h])
  · rw [c4, c3, c2, c1]
    congr 1
    have : payloadWrites (fill data 0 P) = payloadWrites (fun j => P.getD j 0) :=
      payloadWrites_congr (fun j hj => by simpa using fill_at P 0 data j (by omega))
    simpa [payloadWrites, List.range_eq_range'] using this

/-- One pass on a stream without a complete frame blocks for ever and writes
nothing. -/
theorem loopBody_stall (fuel : Nat) (data : Buf) (hw : HW) (h : NoFrame hw.rx)
    (hf : hw.rx.length < fuel) (hc : Clean hw.rx) :
    ∃ hw', loopBody fuel data hw = .stop .stall hw' ∧ calls hw'.trace = calls hw.trace := by
  rcases h with h | ⟨J, R, hrx, hJ, hR⟩
  · obtain ⟨s1, e1, c1⟩ := awaitByte_absent 0x7E hw.rx fuel hw rfl h hf hc
    exact ⟨s1, by simp [loopBody, e1], c1⟩
  · have hlen : J.length + R.length + 1 = hw.rx.length := by simp [hrx]; omega
    rw [hrx] at hc
    obtain ⟨hcJ, hcR⟩ := clean_append.1 hc
    replace hcR := (clean_cons.1 hcR).2
    obtain ⟨s1, e1, r1, l1, c1⟩ := awaitByte_found 0x7E J R fuel hw hrx hJ (by omega)
      (by decide) hcJ
    by_cases hshort : R.length < 16
    · obtain ⟨s2, e2, c2⟩ := collectLoop_short R 16 0 data s1 r1 hshort (by simp [dataSize]) hcR
      exact ⟨s2, by simp [loopBody, e1, e2], by rw [c2, c1]⟩
    · have hR' : 0x7F ∉ R.drop 16 := hR.resolve_left hshort
      have hsplit : R = R.take 16 ++ R.drop 16 := (List.take_append_drop 16 R).symm
      have htl : (R.take 16).length = 16 := by simp; omega
      obtain ⟨s2, e2, r2, l2, c2⟩ :=
        collectLoop_ok (R.take 16) 0 data s1 (R.drop 16) (by rw [r1]; exact hsplit)
          (by simp [htl, dataSize]) (clean_take 16 hcR)
      rw [htl] at e2
      obtain ⟨s3, e3, c3⟩ := awaitByte_absent 0x7F (R.drop 16) fuel s2 r2 hR'
        (by simp; omega) (clean_drop 16 hcR)
      exact ⟨s3, by simp [loopBody, e1, e2, e3], by rw [c3, c2, c1]⟩

/-- Every stream either has no complete frame or starts with one. -/
theorem noFrame_or_frame (rx : List Nat) :
    NoFrame rx ∨ ∃ J P G rest, rx = J ++ 0x7E :: (P ++ (G ++ 0x7F :: rest)) ∧
      0x7E ∉ J ∧ P.length = 16 ∧ 0x7F ∉ G := by
  by_cases h : 0x7E ∈ rx
  · obtain ⟨J, R, hrx, hJ⟩ := List.eq_append_cons_of_mem h
    by_cases hshort : R.length < 16
    · exact Or.inl (Or.inr ⟨J, R, hrx, hJ, Or.inl hshort⟩)
    · by_cases hend : 0x7F ∈ R.drop 16
      · obtain ⟨G, rest, hG, hnG⟩ := List.eq_append_cons_of_mem hend
        refine Or.inr ⟨J, R.take 16, G, rest, ?_, hJ, by simp; omega, hnG⟩
        rw [← hG, List.take_append_drop, hrx]
      · exact Or.inl (Or.inr ⟨J, R, hrx, hJ, Or.inr hend⟩)
  · exact Or.inl (Or.inl h)

end Final15

namespace TestFinal

end TestFinal

/-- C1: the dispatch loop of `main`, in both files and for every content of
`data`, runs to its end and performs exactly sixteen `SPI_ByteWrite` calls: for
`k = 0, ..., 7` in ascending order first `(k, 0x40, 0x12, data[2k])` and then
`(k, 0x40, 0x13, data[2k+1])`, so that the values written are `data[0..15]` in
order. -/
theorem C1_dispatch_order (data : Buf) (hw : HW) :
    ((Final15.dispatchLoop 8 0 data hw).why = none ∧
      calls (Final15.dispatchLoop 8 0 data hw).hw.trace = calls hw.trace ++
        [(0, 0x40, 0x12, data 0), (0, 0x40, 0x13, data 1),
         (1, 0x40, 0x12, data 2), (1, 0x40, 0x13, data 3),
         (2, 0x40, 0x12, data 4), (2, 0x40, 0x13, data 5),
         (3, 0x40, 0x12, data 6), (3, 0x40, 0x13, data 7),
         (4, 0x40, 0x12, data 8), (4, 0x40, 0x13, data 9),
         (5, 0x40, 0x12, data 10), (5, 0x40, 0x13, data 11),
         (6, 0x40, 0x12, data 12), (6, 0x40, 0x13, data 13),
         (7, 0x40, 0x12, data 14), (7, 0x40, 0x13, data 15)] ∧
      ((calls (Final15.dispatchLoop 8 0 data hw).hw.trace).drop (calls hw.trace).length).map
        (fun w => w.2.2.2) = (List.range 16).map data) ∧
    ((TestFinal.dispatchLoop 8 0 data hw).why = none ∧
      calls (TestFinal.dispatchLoop 8 0 data hw).hw.trace = calls hw.trace ++
        [(0, 0x40, 0x12, data 0), (0, 0x40, 0x13, data 1),
         (1, 0x40, 0x12, data 2), (1, 0x40, 0x13, data 3),
         (2, 0x40, 0x12, data 4), (2, 0x40, 0x13, data 5),
         (3, 0x40, 0x12, data 6), (3, 0x40, 0x13, data 7),
         (4, 0x40, 0x12, data 8), (4, 0x40, 0x13, data 9),
         (5, 0x40, 0x12, data 10), (5, 0x40, 0x13, data 11),
         (6, 0x40, 0x12, data 12), (6, 0x40, 0x13, data 13),
         (7, 0x40, 0x12, data 14), (7, 0x40, 0x13, data 15)] ∧
      ((calls (TestFinal.dispatchLoop 8 0 data hw).hw.trace).drop (calls hw.trace).length).map
        (fun w => w.2.2.2) = (List.range 16).map data) := by
  obtain ⟨a, ea, -, -, ca⟩ := Final15.dispatchLoop_ok 8 0 data hw (by omega)
  obtain ⟨b, eb, -, -, cb⟩ := TestFinal.dispatchLoop_ok_B 8 0 data hw (by omega)
  have hp := payloadWrites_eq data
  simp only [payloadWrites, List.range_eq_range'] at hp
  rw [hp] at ca cb
  have hr : (List.range 16).map data =
      [data 0, data 1, data 2, data 3, data 4, data 5, data 6, data 7, data 8, data 9,
       data 10, data 11, data 12, data 13, data 14, data 15] := rfl
  refine ⟨⟨?_, ?_, ?_⟩, ?_, ?_, ?_⟩
  · rw [ea]; rfl
  · rw [ea]; exact ca
  · rw [ea]; simp only [Res.hw]; rw [ca, List.drop_left, hr]; rfl
  · rw [eb]; rfl
  · rw [eb]; exact cb
  · rw [eb]; simp only [Res.hw]; rw [cb, List.drop_left, hr]; rfl

namespace Final15

theorem mainLoop_stall (fuel : Nat) (data : Buf) (hw : HW) (h : NoFrame hw.rx)
    (hf : hw.rx.length < fuel) (hc : Clean hw.rx) :
    ∃ hw', mainLoop fuel data hw = .stop .stall hw' ∧ calls hw'.trace = calls hw.trace := by
  obtain ⟨n, rfl⟩ : ∃ n, fuel = n + 1 := ⟨fuel - 1, by omega⟩
  obtain ⟨s, e, c⟩ := loopBody_stall (n + 1) data hw h hf hc
  exact ⟨s, by simp [mainLoop, e], c⟩

theorem mainLoop_frame (J P G rest : List Nat) (n : Nat) (data : Buf) (hw : HW)
    (hrx : hw.rx = J ++ 0x7E :: (P ++ (G ++ 0x7F :: rest)))
    (hJ : 0x7E ∉ J) (hP : P.length = 16) (hG : 0x7F ∉ G)
    (hfJ : J.length < n + 1) (hfG : G.length < n + 1)
    (hcJ : Clean J) (hcP : Clean P) (hcG : Clean G) :
    ∃ hw', mainLoop (n + 1) data hw = mainLoop n (fill data 0 P) hw' ∧ hw'.rx = rest ∧
      (hw.latd = idle → hw'.latd = idle) ∧
      calls hw'.trace = calls hw.trace ++ payloadWrites (fun j => P.getD j 0) := by
  obtain ⟨s, e, r, l, c⟩ := loopBody_frame J P G rest (n + 1) data hw hrx hJ hP hG hfJ hfG
    hcJ hcP hcG
  exact ⟨s, by simp [mainLoop, e], r, l, c⟩

/-- With enough fuel the loop of variant A ends up blocked in `UART_Receive`,
having dispatched exactly the payloads of the envelopes that the stream starts
with. -/
theorem mainLoop_parse :
    ∀ (fuel : Nat) (data : Buf) (hw : HW), hw.rx.length < fuel → Clean hw.rx →
      ∃ (fs : List Envelope) (tail : List Nat) (hw' : HW),
        mainLoop fuel data hw = .stop .stall hw' ∧
        hw.rx = fs.flatMap Envelope.bytes ++ tail ∧
        (∀ f ∈ fs, f.wf) ∧ NoFrame tail ∧
        calls hw'.trace = calls hw.trace ++
          fs.flatMap fun f => payloadWrites (fun j => f.payload.getD j 0) := by
  intro fuel
  induction fuel with
  | zero => intro data hw h; omega
  | succ n ih =>
    intro data hw hf hc
    rcases noFrame_or_frame hw.rx with h | ⟨J, P, G, rest, hrx, hJ, hP, hG⟩
    · obtain ⟨s, e, c⟩ := mainLoop_stall (n + 1) data hw h hf hc
      exact ⟨[], hw.rx, s, e, by simp, by simp, h, by simpa using c⟩
    · have hlen : hw.rx.length = J.length + P.length + G.length + rest.length + 2 := by
        simp [hrx]; omega
      have hc' := hc
      rw [hrx] at hc'
      obtain ⟨hcJ, hc1⟩ := clean_append.1 hc'
      obtain ⟨hcP, hc2⟩ := clean_append.1 (clean_cons.1 hc1).2
      obtain ⟨hcG, hc3⟩ := clean_append.1 hc2
      have hcrest : Clean rest := (clean_cons.1 hc3).2
      obtain ⟨s, e, r, -, c⟩ :=
        mainLoop_frame J P G rest n data hw hrx hJ hP hG (by omega) (by omega) hcJ hcP hcG
      obtain ⟨fs, tail, s', e', r', w', t', c'⟩ := ih (fill data 0 P) s (by rw [r]; omega)
        (by rw [r]; exact hcrest)
      refine ⟨⟨J, P, G⟩ :: fs, tail, s', by rw [e, e'], ?_, ?_, t', ?_⟩
      · rw [hrx, ← (show s.rx = rest from r), r']
        simp [Envelope.bytes]
      · intro f hf
        rcases List.mem_cons.1 hf with rfl | hf
        · exact ⟨hJ, hP, hG⟩
        · exact w' f hf
      · rw [c', c]
        simp

end Final15

namespace TestFinal

end TestFinal

theorem dataWrites_of_calls {t : List Obs} {ws : List (Nat × Nat × Nat × Nat)}
    (h : calls t = initWrites ++ ws) :
    dataWrites t = ws.filter (fun w => w.2.2.1 = GPIOA ∨ w.2.2.1 = GPIOB) := by
  simp only [dataWrites, h, List.filter_append, dataWrites_initWrites, List.nil_append]

theorem filter_flatMap_payloadWrites {α : Type} (xs : List α) (p : α → Nat → Nat) :
    (xs.flatMap fun x => payloadWrites (p x)).filter
      (fun w => w.2.2.1 = GPIOA ∨ w.2.2.1 = GPIOB) = xs.flatMap fun x => payloadWrites (p x) := by
  induction xs with
  | nil => rfl
  | cons x xs ih =>
    simp only [List.flatMap_cons, List.filter_append, ih, dataWrites_payloadWrites]

/-- The state in which `main` enters its loop. -/
theorem init_state (rx : List Nat) (s : Nat) (l : LATD) :
    (MCP_Init (SPI_Init (UART_Init (powerOn rx s l)))).rx = rx ∧
    (MCP_Init (SPI_Init (UART_Init (powerOn rx s l)))).latd = idle ∧
    calls (MCP_Init (SPI_Init (UART_Init (powerOn rx s l)))).trace = initWrites := by
  refine ⟨?_, MCP_Init_latd _, ?_⟩
  · rw [MCP_Init_rx, SPI_Init_rx, UART_Init_rx]; rfl
  · rw [MCP_Init_calls, SPI_Init_calls, UART_Init_trace]; rfl

namespace Final15

/-- Variant A on any stream received without framing error, with enough fuel. -/
theorem main_parse (fuel : Nat) (data0 : Buf) (rx : List Nat) (s : Nat) (l : LATD)
    (hf : rx.length < fuel) (hcl : Clean rx) :
    ∃ (fs : List Envelope) (tail : List Nat),
      (main fuel data0 (powerOn rx s l)).why = some .stall ∧
      rx = fs.flatMap Envelope.bytes ++ tail ∧ (∀ f ∈ fs, f.wf) ∧ NoFrame tail ∧
      calls (main fuel data0 (powerOn rx s l)).hw.trace = initWrites ++
        fs.flatMap fun f => payloadWrites (fun j => f.payload.getD j 0) := by
  obtain ⟨hr, -, hc⟩ := init_state rx s l
  obtain ⟨fs, tail, hw', e, r, w, t, c⟩ :=
    mainLoop_parse fuel data0 (MCP_Init (SPI_Init (UART_Init (powerOn rx s l))))
      (by rw [hr]; exact hf) (by rw [hr]; exact hcl)
  refine ⟨fs, tail, ?_, by rw [← r, hr], w, t, ?_⟩
  · show (mainLoop fuel data0 _).why = _
    rw [e]; rfl
  · show calls (mainLoop fuel data0 _).hw.trace = _
    rw [e]; simp only [Res.hw]; rw [c, hc]

/-- Variant A on a stream that holds a frame followed by `rest`. -/
theorem main_frame (J P G rest : List Nat) (n : Nat) (data0 : Buf) (s : Nat) (l : LATD)
    (hJ : 0x7E ∉ J) (hP : P.length = 16) (hG : 0x7F ∉ G)
    (hfJ : J.length < n + 1) (hfG : G.length < n + 1)
    (hcJ : Clean J) (hcP : Clean P) (hcG : Clean G) :
    ∃ hw', main (n + 1) data0 (powerOn (J ++ 0x7E :: (P ++ (G ++ 0x7F :: rest))) s l) =
        mainLoop n (fill data0 0 P) hw' ∧ hw'.rx = rest ∧
      calls hw'.trace = initWrites ++ payloadWrites (fun j => P.getD j 0) := by
  obtain ⟨hr, -, hc⟩ := init_state (J ++ 0x7E :: (P ++ (G ++ 0x7F :: rest))) s l
  obtain ⟨hw', e, r, -, c⟩ := mainLoop_frame J P G rest n data0 _ hr hJ hP hG hfJ hfG
    hcJ hcP hcG
  exact ⟨hw', e, r, by rw [c, hc]⟩

theorem noFrame_nil : NoFrame [] := Or.inl (by simp)

/-- Variant A on a stream that holds exactly one frame. -/
theorem main_one_frame (J P G : List Nat) (fuel : Nat) (data0 : Buf) (s : Nat) (l : LATD)
    (hJ : 0x7E ∉ J) (hP : P.length = 16) (hG : 0x7F ∉ G)
    (hf : (J ++ 0x7E :: (P ++ (G ++ [0x7F]))).length < fuel)
    (hcJ : Clean J) (hcP : Clean P) (hcG : Clean G) :
    (main fuel data0 (powerOn (J ++ 0x7E :: (P ++ (G ++ [0x7F]))) s l)).why = some .stall ∧
    calls (main fuel data0 (powerOn (J ++ 0x7E :: (P ++ (G ++ [0x7F]))) s l)).hw.trace =
      initWrites ++ payloadWrites (fun j => P.getD j 0) := by
  simp at hf
  obtain ⟨n, rfl⟩ : ∃ n, fuel = n + 1 := ⟨fuel - 1, by omega⟩
  obtain ⟨hw1, e, r, c⟩ := main_frame J P G [] n data0 s l hJ hP hG (by omega) (by omega)
    hcJ hcP hcG
  obtain ⟨hw2, e2, c2⟩ := mainLoop_stall n (fill data0 0 P) hw1 (by rw [r]; exact noFrame_nil)
    (by rw [r]; simp; omega) (by rw [r]; exact clean_nil)
  rw [e, e2]
  exact ⟨rfl, by simp only [Res.hw]; rw [c2, c]⟩

end Final15

namespace TestFinal

end TestFinal

/-- C9: for a chip index `c` in `0..7` and any bytes, `SPI_ByteWrite c opcode addr
data`, entered in any state, adds to the trace exactly: its entry, the eight
deselecting assignments, `LATDc = 0`, the three loads of `SSPBUF` with `opcode`,
`addr`, `data` in this order, the eight deselecting assignments, and its return.
From the selecting assignment through the third load line `c` is low and the
other seven lines are high; line `c` stays low until its own deselecting
assignment after the third load, and is high from then on; at the return all
lines are high. -/
theorem C9_register_write_transaction (c o a d : Nat) (hw : HW) (hc : c < 8) :
    (SPI_ByteWrite c o a d hw).trace = hw.trace ++ writeObs c o a d hw.latd ∧
    (writeObs c o a d hw.latd).map Obs.ev =
      [.call c o a d,
       .lat 0 true, .lat 1 true, .lat 2 true, .lat 3 true,
       .lat 4 true, .lat 5 true, .lat 6 true, .lat 7 true,
       .lat c false,
       .sspbuf o, .sspbuf a, .sspbuf d,
       .lat 0 true, .lat 1 true, .lat 2 true, .lat 3 true,
       .lat 4 true, .lat 5 true, .lat 6 true, .lat 7 true,
       .ret] ∧
    spiBytes (writeObs c o a d hw.latd) = [o, a, d] ∧
    (∀ ob ∈ ((writeObs c o a d hw.latd).drop 9).take 4,
      ∀ n, n < 8 → (ob.lines.level n = false ↔ n = c)) ∧
    (∀ ob ∈ ((writeObs c o a d hw.latd).drop 9).take (4 + c), ob.lines.level c = false) ∧
    (∀ ob ∈ (writeObs c o a d hw.latd).drop (13 + c), ob.lines.level c = true) ∧
    (SPI_ByteWrite c o a d hw).latd.allHigh = true := by
  refine ⟨SPI_ByteWrite_trace c o a d hw, ?_, spiBytes_writeObs c o a d _, ?_, ?_, ?_, ?_⟩
  · simp [writeObs, SPI_ByteWrite, selectChip_trace, hc]
  · have key : ∀ n, n < 8 → ((idle.assign c false).level n = false ↔ n = c) := by
      intro n hn
      interval_cases c <;> interval_cases n <;> decide
    simp [writeObs, SPI_ByteWrite, selectChip_trace, selectChip_latd, hc]
    interval_cases c <;> exact key
  · interval_cases c <;>
      simp [writeObs, SPI_ByteWrite, selectChip, LATD.assign, LATD.level, LATD.lines]
  · interval_cases c <;>
      simp [writeObs, SPI_ByteWrite, selectChip, LATD.assign, LATD.level, LATD.lines]
  · rw [SPI_ByteWrite_latd]; rfl

/-- C9, witness: chip 3, entered with lines 0, 1 and 3 low. -/
theorem C9_register_write_transaction_witness :
    (SPI_ByteWrite 3 0x40 0x12 0xAA
        (powerOn [] 0 ⟨false, false, true, false, true, true, true, true⟩)).trace =
      (powerOn [] 0 ⟨false, false, true, false, true, true, true, true⟩).trace ++
        writeObs 3 0x40 0x12 0xAA
          (powerOn [] 0 ⟨false, false, true, false, true, true, true, true⟩).latd ∧
    (writeObs 3 0x40 0x12 0xAA
        (powerOn [] 0 ⟨false, false, true, false, true, true, true, true⟩).latd).map Obs.ev =
      [.call 3 0x40 0x12 0xAA,
       .lat 0 true, .lat 1 true, .lat 2 true, .lat 3 true,
       .lat 4 true, .lat 5 true, .lat 6 true, .lat 7 true,
       .lat 3 false,
       .sspbuf 0x40, .sspbuf 0x12, .sspbuf 0xAA,
       .lat 0 true, .lat 1 true, .lat 2 true, .lat 3 true,
       .lat 4 true, .lat 5 true, .lat 6 true, .lat 7 true,
       .ret] ∧
    spiBytes (writeObs 3 0x40 0x12 0xAA
        (powerOn [] 0 ⟨false, false, true, false, true, true, true, true⟩).latd) =
      [0x40, 0x12, 0xAA] :=
  have h := C9_register_write_transaction 3 0x40 0x12 0xAA
    (powerOn [] 0 ⟨false, false, true, false, true, true, true, true⟩) (by decide)
  ⟨h.1, h.2.1, h.2.2.1⟩

theorem allHigh_eq_idle {l : LATD} (h : l.allHigh = true) : l = idle := by
  cases l
  simp [LATD.allHigh, LATD.lines] at h
  simp [idle, h]

theorem exclusive_of_check {ob : Obs} (h : ob.exclusiveB = true) : ob.exclusive := by
  simp only [Obs.exclusiveB, Bool.and_eq_true, decide_eq_true_eq, Bool.or_eq_true,
    Bool.not_eq_true'] at h
  refine ⟨h.1, fun hb => ?_⟩
  rcases h.2 with h2 | h2
  · rw [hb] at h2; cases h2
  · exact h2

theorem exclusive_idle (e : Event) : Obs.exclusive ⟨e, idle⟩ :=
  ⟨by show idle.lowCount ≤ 1; decide, fun _ => rfl⟩

theorem assign_of_ge (l : LATD) {n : Nat} (v : Bool) (h : 8 ≤ n) : l.assign n v = l := by
  obtain ⟨k, rfl⟩ : ∃ k, n = k + 8 := ⟨n - 8, by omega⟩
  rfl

/-- Line levels and boundary flags of a call do not depend on the bytes sent, and
every chip index from 8 on behaves like 8. -/
theorem writeObs_shape (c o a d : Nat) (l : LATD) :
    (writeObs c o a d l).map (fun ob => (ob.ev.isBoundary, ob.lines)) =
      (writeObs (min c 8) 0 0 0 l).map (fun ob => (ob.ev.isBoundary, ob.lines)) := by
  by_cases hc : c < 8
  · have hm : min c 8 = c := by omega
    simp [writeObs, SPI_ByteWrite, selectChip_trace, selectChip_latd, hc, hm, Event.isBoundary]
  · have hm : min c 8 = 8 := by omega
    have h8 : ∀ l : LATD, l.assign c false = l := fun l => assign_of_ge l false (by omega)
    have h8' : ∀ l : LATD, l.assign 8 false = l := fun l => rfl
    simp [writeObs, SPI_ByteWrite, selectChip_trace, selectChip_latd, hc, hm, Event.isBoundary,
      h8, h8']

theorem check_writeObs_small :
    ∀ c : Fin 9, ((writeObs c 0 0 0 idle).map (fun ob => (ob.ev.isBoundary, ob.lines))).all
      (fun p => decide (p.2.lowCount ≤ 1) && (!p.1 || p.2.allHigh)) = true := by
  decide

theorem exclusive_writeObs_idle (c o a d : Nat) : ∀ ob ∈ writeObs c o a d idle, ob.exclusive := by
  intro ob hob
  have h := check_writeObs_small ⟨min c 8, by omega⟩
  rw [← writeObs_shape c o a d idle] at h
  exact exclusive_of_check
    (List.all_eq_true.1 h (ob.ev.isBoundary, ob.lines) (List.mem_map_of_mem _ hob))

theorem grows_refl {s : HW} (h : s.latd = idle) : Grows s s :=
  ⟨h, [], by simp, by simp⟩

theorem grows_log (e : Event) {hw0 s : HW} (h : Grows hw0 s) : Grows hw0 (log e s) := by
  obtain ⟨hl, ext, ht, hs⟩ := h
  refine ⟨hl, ext ++ [⟨e, idle⟩], by simp [ht, hl], ?_⟩
  intro ob hob
  rcases List.mem_append.1 hob with h | h
  · exact hs ob h
  · rw [List.mem_singleton.1 h]; exact exclusive_idle e

theorem grows_SPI_ByteWrite (c o a d : Nat) {hw0 s : HW} (h : Grows hw0 s) :
    Grows hw0 (SPI_ByteWrite c o a d s) := by
  obtain ⟨hl, ext, ht, hs⟩ := h
  refine ⟨SPI_ByteWrite_latd c o a d s, ext ++ writeObs c o a d idle, ?_, ?_⟩
  · rw [SPI_ByteWrite_trace, ht, hl, List.append_assoc]
  · intro ob hob
    rcases List.mem_append.1 hob with h | h
    · exact hs ob h
    · exact exclusive_writeObs_idle c o a d ob h

theorem grows_bind {α β : Type} {hw0 : HW} {r : Res α} {f : α → HW → Res β}
    (h : Grows hw0 r.hw) (hf : ∀ a s, Grows hw0 s → Grows hw0 (f a s).hw) :
    Grows hw0 (r.bind f).hw := by
  cases r with
  | ok a s => exact hf a s h
  | stop w s => exact h

theorem grows_UART_Receive {hw0 s : HW} (h : Grows hw0 s) : Grows hw0 (UART_Receive s).hw := by
  rcases UART_Receive_cases s with ⟨-, e⟩ | ⟨b, rest, rc, e, -, -, -⟩
  · rw [e]; exact h
  · rw [e]
    have : Grows hw0 { s with rx := rest, RCREG := rc } := h
    exact grows_log _ this

theorem grows_storeData (size : Nat) (data : Buf) (i v : Nat) {hw0 s : HW} (h : Grows hw0 s) :
    Grows hw0 (storeData size data i v s).hw := by
  unfold storeData
  split
  · exact grows_log _ h
  · exact h

theorem grows_loadData (size : Nat) (data : Buf) (i : Nat) {hw0 s : HW} (h : Grows hw0 s) :
    Grows hw0 (loadData size data i s).hw := by
  unfold loadData
  split
  · exact grows_log _ h
  · exact h

theorem grows_MCP_Init {hw0 s : HW} (h : Grows hw0 s) : Grows hw0 (MCP_Init s) := by
  unfold MCP_Init
  repeat apply grows_SPI_ByteWrite
  exact h

namespace Final15

theorem grows_awaitByte (m : Nat) {hw0 : HW} :
    ∀ (fuel : Nat) (s : HW), Grows hw0 s → Grows hw0 (awaitByte m fuel s).hw := by
  intro fuel
  induction fuel with
  | zero => intro s h; exact h
  | succ n ih =>
    intro s h
    refine grows_bind (grows_UART_Receive h) ?_
    intro b s1 h1
    show Grows hw0 (if b ≠ m then awaitByte m n s1 else Res.ok () s1).hw
    split
    · exact ih s1 h1
    · exact h1

theorem grows_collectLoop {hw0 : HW} :
    ∀ (k i : Nat) (data : Buf) (s : HW), Grows hw0 s → Grows hw0 (collectLoop k i data s).hw := by
  intro k
  induction k with
  | zero => intro i data s h; exact h
  | succ k ih =>
    intro i data s h
    refine grows_bind (grows_UART_Receive h) ?_
    intro b s1 h1
    refine grows_bind (grows_storeData _ _ _ _ h1) ?_
    intro data1 s2 h2
    exact ih _ _ _ h2

theorem grows_dispatchLoop {hw0 : HW} :
    ∀ (k i : Nat) (data : Buf) (s : HW), Grows hw0 s → Grows hw0 (dispatchLoop k i data s).hw := by
  intro k
  induction k with
  | zero => intro i data s h; exact h
  | succ k ih =>
    intro i data s h
    refine grows_bind (grows_loadData _ _ _ h) ?_
    intro a s1 h1
    refine grows_bind (grows_loadData _ _ _ (grows_SPI_ByteWrite _ _ _ _ h1)) ?_
    intro b s2 h2
    exact ih _ _ _ (grows_SPI_ByteWrite _ _ _ _ h2)

/-- What follows the first wait in the loop body. -/
theorem grows_afterStart {hw0 : HW} (fuel : Nat) (data : Buf) (s : HW) (h : Grows hw0 s) :
    Grows hw0 ((collectLoop 16 0 data s).bind fun data hw =>
      (awaitByte 0x7F fuel hw).bind fun _ hw =>
        (dispatchLoop 8 0 data hw).bind fun _ hw => .ok data hw).hw := by
  refine grows_bind (grows_collectLoop _ _ _ _ h) ?_
  intro data1 s1 h1
  refine grows_bind (grows_awaitByte _ _ _ h1) ?_
  intro _ s2 h2
  refine grows_bind (grows_dispatchLoop _ _ _ _ h2) ?_
  intro _ s3 h3
  exact h3

theorem grows_loopBody {hw0 : HW} (fuel : Nat) (data : Buf) (s : HW) (h : Grows hw0 s) :
    Grows hw0 (loopBody fuel data s).hw :=
  grows_bind (grows_awaitByte _ _ _ h) fun _ s1 h1 => grows_afterStart fuel data s1 h1

theorem grows_mainLoop {hw0 : HW} :
    ∀ (fuel : Nat) (data : Buf) (s : HW), Grows hw0 s → Grows hw0 (mainLoop fuel data s).hw := by
  intro fuel
  induction fuel with
  | zero => intro data s h; exact h
  | succ n ih =>
    intro data s h
    exact grows_bind (grows_loopBody _ _ _ h) fun data1 s1 h1 => ih data1 s1 h1

end Final15

namespace TestFinal

theorem grows_collectLoop_B {hw0 : HW} :
    ∀ (k i : Nat) (data : Buf) (s : HW), Grows hw0 s → Grows hw0 (collectLoop k i data s).hw := by
  intro k
  induction k with
  | zero => intro i data s h; exact h
  | succ k ih =>
    intro i data s h
    refine grows_bind (grows_UART_Receive h) ?_
    intro b s1 h1
    refine grows_bind (grows_storeData _ _ _ _ h1) ?_
    intro data1 s2 h2
    exact ih _ _ _ h2

theorem grows_dispatchLoop_B {hw0 : HW} :
    ∀ (k i : Nat) (data : Buf) (s : HW), Grows hw0 s → Grows hw0 (dispatchLoop k i data s).hw := by
  intro k
  induction k with
  | zero => intro i data s h; exact h
  | succ k ih =>
    intro i data s h
    refine grows_bind (grows_loadData _ _ _ h) ?_
    intro a s1 h1
    refine grows_bind (grows_loadData _ _ _ (grows_SPI_ByteWrite _ _ _ _ h1)) ?_
    intro b s2 h2
    exact ih _ _ _ (grows_SPI_ByteWrite _ _ _ _ h2)

/-- What follows the collecting loop in the loop body. -/
theorem grows_afterCollect {hw0 : HW} (data : Buf) (s : HW) (h : Grows hw0 s) :
    Grows hw0 ((dispatchLoop 8 0 data s).bind fun _ hw => Res.ok data hw).hw :=
  grows_bind (grows_dispatchLoop_B _ _ _ _ h) fun _ _ h3 => h3

theorem grows_loopBody_B {hw0 : HW} (data : Buf) (s : HW) (h : Grows hw0 s) :
    Grows hw0 (loopBody data s).hw :=
  grows_bind (grows_collectLoop_B _ _ _ _ h) fun data1 s1 h1 => grows_afterCollect data1 s1 h1

theorem grows_mainLoop_B {hw0 : HW} :
    ∀ (fuel : Nat) (data : Buf) (s : HW), Grows hw0 s → Grows hw0 (mainLoop fuel data s).hw := by
  intro fuel
  induction fuel with
  | zero => intro data s h; exact h
  | succ n ih =>
    intro data s h
    exact grows_bind (grows_loopBody_B _ _ h) fun data1 s1 h1 => ih data1 s1 h1

end TestFinal

theorem firstRecv_UART_Receive {hw0 : HW} (h : hw0.latd = idle) :
    FirstRecv hw0 (UART_Receive hw0) := by
  rcases UART_Receive_cases hw0 with ⟨-, e⟩ | ⟨b, rest, rc, e, -, -, -⟩
  · rw [e]; exact ⟨h, Or.inl ⟨by simp [Res.why], rfl⟩⟩
  · rw [e]; exact ⟨h, Or.inr ⟨b, hw0.latd, [], rfl⟩⟩

theorem firstRecv_bind {α β : Type} {hw0 : HW} {r : Res α} {f : α → HW → Res β}
    (h : FirstRecv hw0 r) (hf : ∀ a s, Grows s s → Grows s (f a s).hw) :
    FirstRecv hw0 (r.bind f) := by
  cases r with
  | stop w s => exact h
  | ok a s =>
    obtain ⟨hl, h | ⟨b, ls, ext, ht⟩⟩ := h
    · exact absurd rfl h.1
    · obtain ⟨hl2, ext2, ht2, -⟩ := hf a s (grows_refl hl)
      refine ⟨hl2, Or.inr ⟨b, ls, ext ++ ext2, ?_⟩⟩
      show (f a s).hw.trace = _
      rw [ht2]
      have ht' : s.trace = hw0.trace ++ (⟨.recv b, ls⟩ : Obs) :: ext := ht
      rw [ht']; simp

theorem firstRecv_stop {hw0 : HW} (h : hw0.latd = idle) (w : Stop) :
    FirstRecv hw0 (Res.stop w hw0 : Res Unit) :=
  ⟨h, Or.inl ⟨by simp [Res.why], rfl⟩⟩

namespace Final15

theorem firstRecv_mainLoop {hw0 : HW} (h : hw0.latd = idle) (fuel : Nat) (data : Buf) :
    FirstRecv hw0 (mainLoop fuel data hw0) := by
  cases fuel with
  | zero => exact firstRecv_stop h .fuel
  | succ n =>
    refine firstRecv_bind (firstRecv_bind (firstRecv_bind (firstRecv_UART_Receive h) ?_) ?_) ?_
    · intro b s hs
      show Grows s (if b ≠ 0x7E then awaitByte 0x7E n s else Res.ok () s).hw
      split
      · exact grows_awaitByte _ _ _ hs
      · exact hs
    · intro _ s hs
      exact grows_afterStart _ _ _ hs
    · intro data1 s hs
      exact grows_mainLoop _ _ _ hs

end Final15

namespace TestFinal

theorem firstRecv_mainLoop_B {hw0 : HW} (h : hw0.latd = idle) (fuel : Nat) (data : Buf) :
    FirstRecv hw0 (mainLoop fuel data hw0) := by
  cases fuel with
  | zero => exact firstRecv_stop h .fuel
  | succ n =>
    refine firstRecv_bind (firstRecv_bind (firstRecv_bind (firstRecv_UART_Receive h) ?_) ?_) ?_
    · intro b s hs
      refine grows_bind (grows_storeData _ _ _ _ hs) ?_
      intro data1 s1 h1
      exact grows_collectLoop_B _ _ _ _ h1
    · intro data1 s hs
      exact grows_afterCollect _ _ hs
    · intro data1 s hs
      exact grows_mainLoop_B _ _ _ hs

end TestFinal

theorem received_SPI_ByteWrite (c o a d : Nat) (hw : HW) :
    received (SPI_ByteWrite c o a d hw).trace = received hw.trace := by
  rw [SPI_ByteWrite_trace, received_append, received_writeObs, List.append_nil]

theorem received_MCP_Init (hw : HW) : received (MCP_Init hw).trace = received hw.trace := by
  simp [MCP_Init, received_SPI_ByteWrite]

theorem received_SPI_Init (hw : HW) : received (SPI_Init hw).trace = received hw.trace := by
  simp [SPI_Init, received]

/-- C4: in both variants `MCP_Init` makes exactly sixteen `SPI_ByteWrite` calls, for
chip `k = 0, ..., 7` in ascending order `(k, 0x40, 0x00, 0x00)` and then
`(k, 0x40, 0x01, 0x00)`; up to the end of `MCP_Init` no byte has been received
and the receive stream is untouched; and `main` continues this trace with
nothing at all or with the reception of a byte, so that no other SPI write
precedes the first received byte. -/
theorem C4_initialisation (fuel : Nat) (data0 : Buf) (rx : List Nat) (s : Nat) (l : LATD) :
    calls (MCP_Init (SPI_Init (UART_Init (powerOn rx s l)))).trace =
      [(0, 0x40, 0x00, 0x00), (0, 0x40, 0x01, 0x00), (1, 0x40, 0x00, 0x00), (1, 0x40, 0x01, 0x00),
       (2, 0x40, 0x00, 0x00), (2, 0x40, 0x01, 0x00), (3, 0x40, 0x00, 0x00), (3, 0x40, 0x01, 0x00),
       (4, 0x40, 0x00, 0x00), (4, 0x40, 0x01, 0x00), (5, 0x40, 0x00, 0x00), (5, 0x40, 0x01, 0x00),
       (6, 0x40, 0x00, 0x00), (6, 0x40, 0x01, 0x00), (7, 0x40, 0x00, 0x00),
       (7, 0x40, 0x01, 0x00)] ∧
    received (MCP_Init (SPI_Init (UART_Init (powerOn rx s l)))).trace = [] ∧
    (MCP_Init (SPI_Init (UART_Init (powerOn rx s l)))).rx = rx ∧
    (∃ post, (Final15.main fuel data0 (powerOn rx s l)).hw.trace =
        (MCP_Init (SPI_Init (UART_Init (powerOn rx s l)))).trace ++ post ∧
      (post = [] ∨ ∃ b ls post', post = (⟨.recv b, ls⟩ : Obs) :: post')) ∧
    (∃ post, (TestFinal.main fuel data0 (powerOn rx s l)).hw.trace =
        (MCP_Init (SPI_Init (UART_Init (powerOn rx s l)))).trace ++ post ∧
      (post = [] ∨ ∃ b ls post', post = (⟨.recv b, ls⟩ : Obs) :: post')) := by
  obtain ⟨hr, hl, hc⟩ := init_state rx s l
  refine ⟨hc, ?_, hr, ?_, ?_⟩
  · rw [received_MCP_Init, received_SPI_Init, UART_Init_trace]; rfl
  · obtain ⟨-, h | ⟨b, ls, ext, h⟩⟩ := Final15.firstRecv_mainLoop hl fuel data0
    · exact ⟨[], by simpa using h.2, Or.inl rfl⟩
    · exact ⟨_, h, Or.inr ⟨b, ls, ext, rfl⟩⟩
  · obtain ⟨-, h | ⟨b, ls, ext, h⟩⟩ := TestFinal.firstRecv_mainLoop_B hl fuel data0
    · exact ⟨[], by simpa using h.2, Or.inl rfl⟩
    · exact ⟨_, h, Or.inr ⟨b, ls, ext, rfl⟩⟩

/-- C3: when `SPI_ByteWrite` is entered with all eight select lines high, then at
no observation during the call are two lines low, and whatever the entry state
all lines are high when it returns; and in every run of `main`, in both variants
and from any power-on state, every observation after `SPI_Init` has at most one
line low, and at every entry into and return from `SPI_ByteWrite` all eight
lines are high. -/
theorem C3_chip_select_mutual_exclusion (c o a d : Nat) (hw : HW) (fuel : Nat) (data0 : Buf)
    (hw0 : HW) (h : hw.latd.allHigh = true) :
    (SPI_ByteWrite c o a d hw).trace = hw.trace ++ writeObs c o a d hw.latd ∧
    (∀ ob ∈ writeObs c o a d hw.latd, ob.lines.lowCount ≤ 1) ∧
    (SPI_ByteWrite c o a d hw).latd.allHigh = true ∧
    (SPI_ByteWrite c o a d hw0).latd.allHigh = true ∧
    (SPI_Init (UART_Init hw0)).latd.allHigh = true ∧
    (∃ ext, (Final15.main fuel data0 hw0).hw.trace = (SPI_Init (UART_Init hw0)).trace ++ ext ∧
      ∀ ob ∈ ext, ob.lines.lowCount ≤ 1 ∧ (ob.ev.isBoundary = true → ob.lines.allHigh = true)) ∧
    (∃ ext, (TestFinal.main fuel data0 hw0).hw.trace = (SPI_Init (UART_Init hw0)).trace ++ ext ∧
      ∀ ob ∈ ext, ob.lines.lowCount ≤ 1 ∧ (ob.ev.isBoundary = true → ob.lines.allHigh = true)) := by
  have hi : Grows (SPI_Init (UART_Init hw0)) (SPI_Init (UART_Init hw0)) :=
    grows_refl (SPI_Init_latd _)
  refine ⟨SPI_ByteWrite_trace c o a d hw, ?_, ?_, ?_, ?_, ?_, ?_⟩
  · rw [allHigh_eq_idle h]
    intro ob hob
    exact (exclusive_writeObs_idle c o a d ob hob).1
  · rw [SPI_ByteWrite_latd]; rfl
  · rw [SPI_ByteWrite_latd]; rfl
  · rw [SPI_Init_latd]; rfl
  · obtain ⟨-, ext, ht, hs⟩ := Final15.grows_mainLoop fuel data0 _ (grows_MCP_Init hi)
    exact ⟨ext, ht, hs⟩
  · obtain ⟨-, ext, ht, hs⟩ := TestFinal.grows_mainLoop_B fuel data0 _ (grows_MCP_Init hi)
    exact ⟨ext, ht, hs⟩

/-- C3, witness: chip 5 from the idle state, and a run of variant A on one frame. -/
theorem C3_chip_select_mutual_exclusion_witness :
    (∀ ob ∈ writeObs 5 0x40 0x13 0x0F (powerOn [] 0 idle).latd, ob.lines.lowCount ≤ 1) ∧
    (∃ ext, (Final15.main 30 (fun _ => 0) (powerOn
        [0x7E, 1, 2, 3, 4, 5, 6, 7, 8, 9, 10, 11, 12, 13, 14, 15, 16, 0x7F] 0
          ⟨false, true, false, true, true, true, true, false⟩)).hw.trace =
        (SPI_Init (UART_Init (powerOn
          [0x7E, 1, 2, 3, 4, 5, 6, 7, 8, 9, 10, 11, 12, 13, 14, 15, 16, 0x7F] 0
            ⟨false, true, false, true, true, true, true, false⟩))).trace ++ ext ∧
      ∀ ob ∈ ext, ob.lines.lowCount ≤ 1 ∧
        (ob.ev.isBoundary = true → ob.lines.allHigh = true)) :=
  have h := C3_chip_select_mutual_exclusion 5 0x40 0x13 0x0F (powerOn [] 0 idle) 30 (fun _ => 0)
    (powerOn [0x7E, 1, 2, 3, 4, 5, 6, 7, 8, 9, 10, 11, 12, 13, 14, 15, 16, 0x7F] 0
      ⟨false, true, false, true, true, true, true, false⟩) rfl
  ⟨h.2.1, h.2.2.2.2.2.1⟩

/-- C11: the divisor `MY_UBRR = (8000000/16/4800) - 1` of `UART_Init` is 103 in
integer arithmetic; it is below 256, so `SPBRG` receives it without truncation;
and the rate of the high-speed baud generator for this divisor,
`8000000 / (16 * (103 + 1))`, is `62500/13 = 4807.69...` (4807 in integer
arithmetic), which differs from the nominal 4800 baud by less than one percent. -/
theorem C11_baud_divisor (hw : HW) :
    MY_UBRR = 103 ∧
    (UART_Init hw).SPBRG = 103 ∧
    MY_UBRR < 2 ^ 8 ∧
    MY_UBRR % 2 ^ 8 = MY_UBRR ∧
    FREQ / (16 * (MY_UBRR + 1)) = 4807 ∧
    (FREQ : ℚ) / (16 * ((MY_UBRR : ℚ) + 1)) = 62500 / 13 ∧
    |(FREQ : ℚ) / (16 * ((MY_UBRR : ℚ) + 1)) - (BAUD : ℚ)| < (BAUD : ℚ) / 100 := by
  have h : MY_UBRR = 103 := by decide
  refine ⟨h, ?_, by decide, by decide, by decide, ?_, ?_⟩
  · show MY_UBRR % 256 = 103
    decide
  · rw [h]; norm_num [FREQ]
  · rw [h]; norm_num [FREQ, BAUD, abs_lt]

/-- C14: for a chip index `c` from 8 on, `SPI_ByteWrite c opcode addr data`,
entered in any state, adds to the trace exactly: its entry, the eight
deselecting assignments, the three loads of `SSPBUF` with `opcode`, `addr`,
`data` in this order, the eight deselecting assignments, and its return.  No
assignment drives a line low; after the first eight assignments all eight lines
are high up to the return, and when the call is entered with all lines high they
are high at every observation of the call. -/
theorem C14_out_of_range_chip (c o a d : Nat) (hw : HW) (hc : 8 ≤ c) :
    (SPI_ByteWrite c o a d hw).trace = hw.trace ++ writeObs c o a d hw.latd ∧
    (writeObs c o a d hw.latd).map Obs.ev =
      [.call c o a d,
       .lat 0 true, .lat 1 true, .lat 2 true, .lat 3 true,
       .lat 4 true, .lat 5 true, .lat 6 true, .lat 7 true,
       .sspbuf o, .sspbuf a, .sspbuf d,
       .lat 0 true, .lat 1 true, .lat 2 true, .lat 3 true,
       .lat 4 true, .lat 5 true, .lat 6 true, .lat 7 true,
       .ret] ∧
    (∀ ob ∈ writeObs c o a d hw.latd, ∀ n, ob.ev ≠ .lat n false) ∧
    spiBytes (writeObs c o a d hw.latd) = [o, a, d] ∧
    (∀ ob ∈ (writeObs c o a d hw.latd).drop 8, ob.lines.allHigh = true) ∧
    (hw.latd.allHigh = true → ∀ ob ∈ writeObs c o a d hw.latd, ob.lines.allHigh = true) ∧
    (SPI_ByteWrite c o a d hw).latd.allHigh = true := by
  have hc' : ¬ c < 8 := by omega
  have h8 : ∀ l : LATD, l.assign c false = l := fun l => assign_of_ge l false hc
  refine ⟨SPI_ByteWrite_trace c o a d hw, ?_, ?_, spiBytes_writeObs c o a d _, ?_, ?_, ?_⟩
  · simp [writeObs, SPI_ByteWrite, selectChip_trace, hc']
  · simp [writeObs, SPI_ByteWrite, selectChip_trace, hc']
  · simp only [writeObs, SPI_ByteWrite, selectChip_trace, selectChip_latd, hc', h8, log_trace,
      log_latd, writeLATD_trace, writeLATD_latd, writeSSPBUF_trace, writeSSPBUF_latd]
    simp [LATD.assign, LATD.allHigh, LATD.lines]
  · intro h
    rw [allHigh_eq_idle h]
    simp only [writeObs, SPI_ByteWrite, selectChip_trace, selectChip_latd, hc', h8, log_trace,
      log_latd, writeLATD_trace, writeLATD_latd, writeSSPBUF_trace, writeSSPBUF_latd]
    simp [LATD.assign, LATD.allHigh, LATD.lines, idle]
  · rw [SPI_ByteWrite_latd]; rfl

/-- C14, witness: chip index 8, entered with lines 2 and 6 low. -/
theorem C14_out_of_range_chip_witness :
    (writeObs 8 0x40 0x12 0x5A
        (powerOn [] 0 ⟨true, true, false, true, true, true, false, true⟩).latd).map Obs.ev =
      [.call 8 0x40 0x12 0x5A,
       .lat 0 true, .lat 1 true, .lat 2 true, .lat 3 true,
       .lat 4 true, .lat 5 true, .lat 6 true, .lat 7 true,
       .sspbuf 0x40, .sspbuf 0x12, .sspbuf 0x5A,
       .lat 0 true, .lat 1 true, .lat 2 true, .lat 3 true,
       .lat 4 true, .lat 5 true, .lat 6 true, .lat 7 true,
       .ret] ∧
    spiBytes (writeObs 8 0x40 0x12 0x5A
        (powerOn [] 0 ⟨true, true, false, true, true, true, false, true⟩).latd) =
      [0x40, 0x12, 0x5A] ∧
    (∀ ob ∈ (writeObs 8 0x40 0x12 0x5A
        (powerOn [] 0 ⟨true, true, false, true, true, true, false, true⟩).latd).drop 8,
      ob.lines.allHigh = true) :=
  have h := C14_out_of_range_chip 8 0x40 0x12 0x5A
    (powerOn [] 0 ⟨true, true, false, true, true, true, false, true⟩) (by decide)
  ⟨h.2.1, h.2.2.2.1, h.2.2.2.2.1⟩

theorem kept_bind {R : HW → Prop} {α β : Type} {r : Res α} {f : α → HW → Res β}
    (h : Kept R r) (hf : ∀ a s, R s → Kept R (f a s)) : Kept R (r.bind f) := by
  cases r with
  | ok a s => exact hf a s h.1
  | stop w s => exact h

theorem kept_ok {R : HW → Prop} {α : Type} (a : α) {s : HW} (h : R s) : Kept R (Res.ok a s) :=
  ⟨h, by simp [Res.why]⟩

theorem kept_UART_Receive {R : HW → Prop} (hR : Preserved R) {s : HW} (h : R s) :
    Kept R (UART_Receive s) := by
  rcases UART_Receive_cases s with ⟨-, e⟩ | ⟨b, rest, rc, e, -, -, -⟩
  · rw [e]; exact ⟨h, by simp [Res.why]⟩
  · rw [e]; exact kept_ok _ (hR.recv s b rest rc h)

theorem kept_storeData {R : HW → Prop} (hR : Preserved R) (size : Nat) (data : Buf) (i v : Nat)
    {s : HW} (hi : i < 16) (hs : 16 ≤ size) (h : R s) : Kept R (storeData size data i v s) := by
  have : i < size := by omega
  simp only [storeData, this, if_true]
  exact kept_ok _ (hR.store s i v hi h)

theorem kept_loadData {R : HW → Prop} (hR : Preserved R) (size : Nat) (data : Buf) (i : Nat)
    {s : HW} (hi : i < 16) (hs : 16 ≤ size) (h : R s) : Kept R (loadData size data i s) := by
  have : i < size := by omega
  simp only [loadData, this, if_true]
  exact kept_ok _ (hR.load s i _ hi h)

theorem kept_MCP_Init {R : HW → Prop} (hR : Preserved R) {s : HW} (h : R s) : R (MCP_Init s) := by
  unfold MCP_Init
  repeat (apply hR.write _ _ _ _ _ (by decide))
  exact h

namespace Final15

theorem kept_awaitByte {R : HW → Prop} (hR : Preserved R) (m : Nat) :
    ∀ (fuel : Nat) (s : HW), R s → Kept R (awaitByte m fuel s) := by
  intro fuel
  induction fuel with
  | zero => intro s h; exact ⟨h, by simp [awaitByte, Res.why]⟩
  | succ n ih =>
    intro s h
    refine kept_bind (kept_UART_Receive hR h) ?_
    intro b s1 h1
    show Kept R (if b ≠ m then awaitByte m n s1 else Res.ok () s1)
    split
    · exact ih s1 h1
    · exact kept_ok _ h1

theorem kept_collectLoop {R : HW → Prop} (hR : Preserved R) :
    ∀ (k i : Nat) (data : Buf) (s : HW), i + k ≤ 16 → R s → Kept R (collectLoop k i data s) := by
  intro k
  induction k with
  | zero => intro i data s _ h; exact kept_ok _ h
  | succ k ih =>
    intro i data s hi h
    refine kept_bind (kept_UART_Receive hR h) ?_
    intro b s1 h1
    refine kept_bind (kept_storeData hR _ _ _ _ (by omega) (by decide) h1) ?_
    intro data1 s2 h2
    exact ih _ _ _ (by omega) h2

theorem kept_dispatchLoop {R : HW → Prop} (hR : Preserved R) :
    ∀ (k i : Nat) (data : Buf) (s : HW), i + k ≤ 8 → R s → Kept R (dispatchLoop k i data s) := by
  intro k
  induction k with
  | zero => intro i data s _ h; exact kept_ok _ h
  | succ k ih =>
    intro i data s hi h
    refine kept_bind (kept_loadData hR _ _ _ (by omega) (by decide) h) ?_
    intro a s1 h1
    refine kept_bind (kept_loadData hR _ _ _ (by omega) (by decide)
      (hR.write _ _ _ _ _ (by omega) h1)) ?_
    intro b s2 h2
    exact ih _ _ _ (by omega) (hR.write _ _ _ _ _ (by omega) h2)

theorem kept_loopBody {R : HW → Prop} (hR : Preserved R) (fuel : Nat) (data : Buf) (s : HW)
    (h : R s) : Kept R (loopBody fuel data s) := by
  refine kept_bind (kept_awaitByte hR _ _ _ h) ?_
  intro _ s1 h1
  refine kept_bind (kept_collectLoop hR _ _ _ _ (by decide) h1) ?_
  intro data1 s2 h2
  refine kept_bind (kept_awaitByte hR _ _ _ h2) ?_
  intro _ s3 h3
  refine kept_bind (kept_dispatchLoop hR _ _ _ _ (by decide) h3) ?_
  intro _ s4 h4
  exact kept_ok _ h4

theorem kept_mainLoop {R : HW → Prop} (hR : Preserved R) :
    ∀ (fuel : Nat) (data : Buf) (s : HW), R s → Kept R (mainLoop fuel data s) := by
  intro fuel
  induction fuel with
  | zero => intro data s h; exact ⟨h, by simp [mainLoop, Res.why]⟩
  | succ n ih =>
    intro data s h
    exact kept_bind (kept_loopBody hR _ _ _ h) fun data1 s1 h1 => ih data1 s1 h1

end Final15

namespace TestFinal

theorem kept_collectLoop_B {R : HW → Prop} (hR : Preserved R) :
    ∀ (k i : Nat) (data : Buf) (s : HW), i + k ≤ 16 → R s → Kept R (collectLoop k i data s) := by
  intro k
  induction k with
  | zero => intro i data s _ h; exact kept_ok _ h
  | succ k ih =>
    intro i data s hi h
    refine kept_bind (kept_UART_Receive hR h) ?_
    intro b s1 h1
    refine kept_bind (kept_storeData hR _ _ _ _ (by omega) (by decide) h1) ?_
    intro data1 s2 h2
    exact ih _ _ _ (by omega) h2

theorem kept_dispatchLoop_B {R : HW → Prop} (hR : Preserved R) :
    ∀ (k i : Nat) (data : Buf) (s : HW), i + k ≤ 8 → R s → Kept R (dispatchLoop k i data s) := by
  intro k
  induction k with
  | zero => intro i data s _ h; exact kept_ok _ h
  | succ k ih =>
    intro i data s hi h
    refine kept_bind (kept_loadData hR _ _ _ (by omega) (by decide) h) ?_
    intro a s1 h1
    refine kept_bind (kept_loadData hR _ _ _ (by omega) (by decide)
      (hR.write _ _ _ _ _ (by omega) h1)) ?_
    intro b s2 h2
    exact ih _ _ _ (by omega) (hR.write _ _ _ _ _ (by omega) h2)

theorem kept_loopBody_B {R : HW → Prop} (hR : Preserved R) (data : Buf) (s : HW)
    (h : R s) : Kept R (loopBody data s) := by
  refine kept_bind (kept_collectLoop_B hR _ _ _ _ (by decide) h) ?_
  intro data1 s2 h2
  refine kept_bind (kept_dispatchLoop_B hR _ _ _ _ (by decide) h2) ?_
  intro _ s4 h4
  exact kept_ok _ h4

theorem kept_mainLoop_B {R : HW → Prop} (hR : Preserved R) :
    ∀ (fuel : Nat) (data : Buf) (s : HW), R s → Kept R (mainLoop fuel data s) := by
  intro fuel
  induction fuel with
  | zero => intro data s h; exact ⟨h, by simp [mainLoop, Res.why]⟩
  | succ n ih =>
    intro data s h
    exact kept_bind (kept_loopBody_B hR _ _ h) fun data1 s1 h1 => ih data1 s1 h1

end TestFinal

namespace Final15

end Final15

namespace TestFinal

end TestFinal

@[simp] theorem stores_nil : stores [] = [] := rfl

@[simp] theorem loads_nil : loads [] = [] := rfl

@[simp] theorem stores_append (s t : List Obs) : stores (s ++ t) = stores s ++ stores t := by
  simp [stores, List.filterMap_append]

@[simp] theorem loads_append (s t : List Obs) : loads (s ++ t) = loads s ++ loads t := by
  simp [loads, List.filterMap_append]

@[simp] theorem stores_cons_load (i v : Nat) (l : LATD) (t : List Obs) :
    stores (⟨.load i v, l⟩ :: t) = stores t := rfl

@[simp] theorem loads_cons_load (i v : Nat) (l : LATD) (t : List Obs) :
    loads (⟨.load i v, l⟩ :: t) = (i, v) :: loads t := rfl

theorem stores_writeObs (c o a d : Nat) (l : LATD) : stores (writeObs c o a d l) = [] := by
  by_cases h : c < 8 <;>
    simp [writeObs, SPI_ByteWrite, selectChip_trace, selectChip_latd, stores, h]

theorem loads_writeObs (c o a d : Nat) (l : LATD) : loads (writeObs c o a d l) = [] := by
  by_cases h : c < 8 <;>
    simp [writeObs, SPI_ByteWrite, selectChip_trace, selectChip_latd, loads, h]

theorem inBounds_writeObs (c o a d : Nat) (l : LATD) (hc : c < 8) :
    ∀ ob ∈ writeObs c o a d l, ob.inBounds := by
  simp [writeObs, SPI_ByteWrite, selectChip_trace, selectChip_latd, Obs.inBounds, hc]

theorem allInBounds_preserved : Preserved AllInBounds where
  recv := by
    intro s b rest rc h ob hob
    rcases List.mem_append.1 hob with h' | h'
    · exact h ob h'
    · rw [List.mem_singleton.1 h']; trivial
  store := by
    intro s i v hi h ob hob
    rcases List.mem_append.1 hob with h' | h'
    · exact h ob h'
    · rw [List.mem_singleton.1 h']; exact hi
  load := by
    intro s i v hi h ob hob
    rcases List.mem_append.1 hob with h' | h'
    · exact h ob h'
    · rw [List.mem_singleton.1 h']; exact hi
  write := by
    intro s c o a d hc h ob hob
    rw [SPI_ByteWrite_trace] at hob
    rcases List.mem_append.1 hob with h' | h'
    · exact h ob h'
    · exact inBounds_writeObs c o a d _ hc ob h'

theorem allInBounds_init (rx : List Nat) (s : Nat) (l : LATD) :
    AllInBounds (MCP_Init (SPI_Init (UART_Init (powerOn rx s l)))) := by
  apply kept_MCP_Init allInBounds_preserved
  intro ob hob
  have : ob ∈ (SPI_Init (powerOn rx (MY_UBRR % 256) l)).trace := hob
  simp [SPI_Init, powerOn] at this
  rcases this with h | h | h | h | h | h | h | h <;> (rw [h]; trivial)

/-- What a wait loop adds to the trace holds no access to `data`. -/
theorem Final15.awaitByte_accesses (m : Nat) :
    ∀ (fuel : Nat) (s : HW), ∃ ext, (Final15.awaitByte m fuel s).hw.trace = s.trace ++ ext ∧
      stores ext = [] ∧ loads ext = [] := by
  intro fuel
  induction fuel with
  | zero => intro s; exact ⟨[], by simp [Final15.awaitByte, Res.hw], rfl, rfl⟩
  | succ n ih =>
    intro s
    rcases UART_Receive_cases s with ⟨-, hrx⟩ | ⟨b, rest, rc, hrx, -, -, -⟩
    · exact ⟨[], by simp [Final15.awaitByte, hrx, Res.hw], rfl, rfl⟩
    · by_cases hb : b = m
      · exact ⟨[⟨.recv b, s.latd⟩],
          by simp [Final15.awaitByte, hrx, hb, Res.hw], rfl, rfl⟩
      · obtain ⟨ext, h1, h2, h3⟩ := ih (log (.recv b) { s with rx := rest, RCREG := rc })
        refine ⟨⟨.recv b, s.latd⟩ :: ext, ?_, by simpa [stores] using h2,
          by simpa [loads] using h3⟩
        simp [Final15.awaitByte, hrx, hb, h1]

namespace Final15

/-- What the collecting loop adds to the trace: no read of `data`, stores at
distinct indices from `i` on, and after a normal end a store of the final value
of every entry `i, ..., i + k - 1`; entries below `i` are unchanged. -/
theorem collectLoop_accesses :
    ∀ (k i : Nat) (data : Buf) (s : HW),
      ∃ ext, (collectLoop k i data s).hw.trace = s.trace ++ ext ∧ loads ext = [] ∧
        ((stores ext).map Prod.fst).Nodup ∧ (∀ x ∈ stores ext, i ≤ x.1) ∧
        ∀ data' s', collectLoop k i data s = .ok data' s' →
          (∀ j, j < i → data' j = data j) ∧
          ∀ j, i ≤ j → j < i + k → (j, data' j) ∈ stores ext := by
  intro k
  induction k with
  | zero =>
    intro i data s
    refine ⟨[], by simp [collectLoop, Res.hw], rfl, by simp, by simp, ?_⟩
    intro data' s' h
    simp only [collectLoop, Res.ok.injEq] at h
    exact ⟨fun j _ => by rw [h.1], fun j h1 h2 => by omega⟩
  | succ k ih =>
    intro i data s
    rcases UART_Receive_cases s with ⟨-, hrx⟩ | ⟨b, rest, rc, hrx, -, -, -⟩
    ·
      refine ⟨[], by simp [collectLoop, hrx, Res.hw], rfl, by simp, by simp, ?_⟩
      intro data' s' h
      simp [collectLoop, hrx] at h
    ·
      by_cases hi : i < dataSize
      · obtain ⟨ext, h1, h2, h3, h4, h5⟩ :=
          ih (i + 1) (fun j => if j = i then b else data j)
            (log (.store i b) (log (.recv b) { s with rx := rest, RCREG := rc }))
        have hrun : collectLoop (k + 1) i data s =
            collectLoop k (i + 1) (fun j => if j = i then b else data j)
              (log (.store i b) (log (.recv b) { s with rx := rest, RCREG := rc })) := by
          simp [collectLoop, hrx, storeData, hi]
        refine ⟨⟨.recv b, s.latd⟩ :: ⟨.store i b, s.latd⟩ :: ext, ?_, ?_, ?_, ?_, ?_⟩
        · rw [hrun, h1]; simp
        · simpa [loads] using h2
        · have hs : stores (⟨.recv b, s.latd⟩ :: ⟨.store i b, s.latd⟩ :: ext) =
              (i, b) :: stores ext := rfl
          rw [hs, List.map_cons, List.nodup_cons]
          refine ⟨?_, h3⟩
          intro hmem
          obtain ⟨x, hx, hxi⟩ := List.mem_map.1 hmem
          have := h4 x hx
          omega
        · intro x hx
          have hs : stores (⟨.recv b, s.latd⟩ :: ⟨.store i b, s.latd⟩ :: ext) =
              (i, b) :: stores ext := rfl
          rw [hs] at hx
          rcases List.mem_cons.1 hx with rfl | hx
          · exact Nat.le_refl _
          · have := h4 x hx
            omega
        · intro data' s' h
          rw [hrun] at h
          obtain ⟨h6, h7⟩ := h5 data' s' h
          have hs : stores (⟨.recv b, s.latd⟩ :: ⟨.store i b, s.latd⟩ :: ext) =
              (i, b) :: stores ext := rfl
          refine ⟨?_, ?_⟩
          · intro j hj
            rw [h6 j (by omega)]
            simp; omega
          · intro j hj1 hj2
            rw [hs]
            by_cases hji : j = i
            · subst hji
              have : data' j = b := by rw [h6 j (by omega)]; simp
              rw [this]
              exact List.mem_cons_self _ _
            · exact List.mem_cons_of_mem _ (h7 j (by omega) (by omega))
      · refine ⟨[⟨.recv b, s.latd⟩], ?_, rfl, by simp [stores], by simp [stores], ?_⟩
        · simp [collectLoop, hrx, storeData, hi, Res.hw]
        · intro data' s' h
          simp [collectLoop, hrx, storeData, hi] at h

/-- What the dispatch loop adds to the trace: no store, and reads of the current
values of entries below `2 (i + k)`. -/
theorem dispatchLoop_accesses :
    ∀ (k i : Nat) (data : Buf) (s : HW),
      ∃ ext, (dispatchLoop k i data s).hw.trace = s.trace ++ ext ∧ stores ext = [] ∧
        ∀ x ∈ loads ext, x.2 = data x.1 ∧ x.1 < 2 * (i + k) := by
  intro k
  induction k with
  | zero =>
    intro i data s
    exact ⟨[], by simp [dispatchLoop, Res.hw], rfl, by simp⟩
  | succ k ih =>
    intro i data s
    by_cases h1 : i * 2 < dataSize
    · by_cases h2 : i * 2 + 1 < dataSize
      · obtain ⟨ext, e1, e2, e3⟩ := ih (i + 1) data
          (SPI_ByteWrite i 0x40 GPIOB (data (i * 2 + 1))
            (log (.load (i * 2 + 1) (data (i * 2 + 1)))
              (SPI_ByteWrite i 0x40 GPIOA (data (i * 2))
                (log (.load (i * 2) (data (i * 2))) s))))
        refine ⟨[⟨.load (i * 2) (data (i * 2)), s.latd⟩] ++
            writeObs i 0x40 GPIOA (data (i * 2)) s.latd ++
            [⟨.load (i * 2 + 1) (data (i * 2 + 1)), idle⟩] ++
            writeObs i 0x40 GPIOB (data (i * 2 + 1)) idle ++ ext, ?_, ?_, ?_⟩
        · simp only [dispatchLoop, loadData, h1, h2, if_true, bind_ok]
          rw [e1]
          simp [SPI_ByteWrite_trace, SPI_ByteWrite_latd]
        · simp only [stores_append, stores_writeObs, e2, stores_cons_load, stores_nil,
            List.append_nil]
        · intro x hx
          simp only [loads_append, loads_writeObs, List.append_nil, List.mem_append,
            loads_cons_load, loads_nil, List.mem_singleton] at hx
          rcases hx with (hx | hx) | hx
          · subst hx
            exact ⟨rfl, by simp only; omega⟩
          · subst hx
            exact ⟨rfl, by simp only; omega⟩
          · obtain ⟨h3, h4⟩ := e3 x hx
            exact ⟨h3, by omega⟩
      · refine ⟨[⟨.load (i * 2) (data (i * 2)), s.latd⟩] ++
            writeObs i 0x40 GPIOA (data (i * 2)) s.latd, ?_, ?_, ?_⟩
        · simp [dispatchLoop, loadData, h1, h2, Res.hw, SPI_ByteWrite_trace]
        · simp only [stores_append, stores_writeObs, stores_cons_load, stores_nil,
            List.append_nil]
        · intro x hx
          simp only [loads_append, loads_writeObs, List.append_nil, loads_cons_load, loads_nil,
            List.mem_singleton] at hx
          subst hx
          exact ⟨rfl, by simp only; omega⟩
    · exact ⟨[], by simp [dispatchLoop, loadData, h1, Res.hw], rfl, by simp⟩

end Final15

theorem hw_bind_ok {α β : Type} (r : Res α) (b : β) :
    (r.bind fun _ hw => Res.ok b hw).hw = r.hw := by
  cases r <;> rfl

namespace Final15

/-- The accesses to `data` in one pass through the loop body: first stores only,
at distinct indices, then reads only, each of an entry and value stored before
in this pass. -/
theorem loopBody_accesses (fuel : Nat) (data : Buf) (hw : HW) :
    ∃ ext1 ext2, (loopBody fuel data hw).hw.trace = hw.trace ++ ext1 ++ ext2 ∧
      loads ext1 = [] ∧ stores ext2 = [] ∧ ((stores ext1).map Prod.fst).Nodup ∧
      ∀ x ∈ loads ext2, x ∈ stores ext1 := by
  obtain ⟨a, ha1, ha2, ha3⟩ := awaitByte_accesses 0x7E fuel hw
  rcases h1 : awaitByte 0x7E fuel hw with ⟨u, s1⟩ | ⟨w, s1⟩
  · rw [h1] at ha1
    simp only [Res.hw] at ha1
    obtain ⟨c, hc1, hc2, hc3, -, hc5⟩ := collectLoop_accesses 16 0 data s1
    rcases h2 : collectLoop 16 0 data s1 with ⟨data', s2⟩ | ⟨w, s2⟩
    · rw [h2] at hc1
      simp only [Res.hw] at hc1
      obtain ⟨-, hc6⟩ := hc5 data' s2 h2
      obtain ⟨e, he1, he2, he3⟩ := awaitByte_accesses 0x7F fuel s2
      rcases h3 : awaitByte 0x7F fuel s2 with ⟨u', s3⟩ | ⟨w, s3⟩
      · rw [h3] at he1
        simp only [Res.hw] at he1
        obtain ⟨d, hd1, hd2, hd3⟩ := dispatchLoop_accesses 8 0 data' s3
        refine ⟨a ++ c ++ e, d, ?_, ?_, hd2, ?_, ?_⟩
        · simp only [loopBody, h1, h2, h3, bind_ok, hw_bind_ok]
          rw [hd1, he1, hc1, ha1]
          simp
        · simp [ha3, hc2, he3]
        · simpa [ha2, he2] using hc3
        · intro x hx
          obtain ⟨hx1, hx2⟩ := hd3 x hx
          have := hc6 x.1 (Nat.zero_le _) (by omega)
          rw [← hx1] at this
          simpa [ha2, he2] using this
      · rw [h3] at he1
        simp only [Res.hw] at he1
        refine ⟨a ++ c ++ e, [], ?_, by simp [ha3, hc2, he3], rfl,
          by simpa [ha2, he2] using hc3, by simp⟩
        simp only [loopBody, h1, h2, h3, bind_ok, bind_stop, Res.hw]
        rw [he1, hc1, ha1]
        simp
    · rw [h2] at hc1
      simp only [Res.hw] at hc1
      refine ⟨a ++ c, [], ?_, by simp [ha3, hc2], rfl, by simpa [ha2] using hc3, by simp⟩
      simp only [loopBody, h1, h2, bind_ok, bind_stop, Res.hw]
      rw [hc1, ha1]
      simp
  · rw [h1] at ha1
    simp only [Res.hw] at ha1
    refine ⟨a, [], ?_, ha3, rfl, by simp [ha2], by simp⟩
    simp only [loopBody, h1, bind_stop, Res.hw]
    rw [ha1]
    simp

end Final15

namespace TestFinal

/-- What the collecting loop adds to the trace: no read of `data`, stores at
distinct indices from `i` on, and after a normal end a store of the final value
of every entry `i, ..., i + k - 1`; entries below `i` are unchanged. -/
theorem collectLoop_accesses_B :
    ∀ (k i : Nat) (data : Buf) (s : HW),
      ∃ ext, (collectLoop k i data s).hw.trace = s.trace ++ ext ∧ loads ext = [] ∧
        ((stores ext).map Prod.fst).Nodup ∧ (∀ x ∈ stores ext, i ≤ x.1) ∧
        ∀ data' s', collectLoop k i data s = .ok data' s' →
          (∀ j, j < i → data' j = data j) ∧
          ∀ j, i ≤ j → j < i + k → (j, data' j) ∈ stores ext := by
  intro k
  induction k with
  | zero =>
    intro i data s
    refine ⟨[], by simp [collectLoop, Res.hw], rfl, by simp, by simp, ?_⟩
    intro data' s' h
    simp only [collectLoop, Res.ok.injEq] at h
    exact ⟨fun j _ => by rw [h.1], fun j h1 h2 => by omega⟩
  | succ k ih =>
    intro i data s
    rcases UART_Receive_cases s with ⟨-, hrx⟩ | ⟨b, rest, rc, hrx, -, -, -⟩
    ·
      refine ⟨[], by simp [collectLoop, hrx, Res.hw], rfl, by simp, by simp, ?_⟩
      intro data' s' h
      simp [collectLoop, hrx] at h
    ·
      by_cases hi : i < dataSize
      · obtain ⟨ext, h1, h2, h3, h4, h5⟩ :=
          ih (i + 1) (fun j => if j = i then b else data j)
            (log (.store i b) (log (.recv b) { s with rx := rest, RCREG := rc }))
        have hrun : collectLoop (k + 1) i data s =
            collectLoop k (i + 1) (fun j => if j = i then b else data j)
              (log (.store i b) (log (.recv b) { s with rx := rest, RCREG := rc })) := by
          simp [collectLoop, hrx, storeData, hi]
        refine ⟨⟨.recv b, s.latd⟩ :: ⟨.store i b, s.latd⟩ :: ext, ?_, ?_, ?_, ?_, ?_⟩
        · rw [hrun, h1]; simp
        · simpa [loads] using h2
        · have hs : stores (⟨.recv b, s.latd⟩ :: ⟨.store i b, s.latd⟩ :: ext) =
              (i, b) :: stores ext := rfl
          rw [hs, List.map_cons, List.nodup_cons]
          refine ⟨?_, h3⟩
          intro hmem
          obtain ⟨x, hx, hxi⟩ := List.mem_map.1 hmem
          have := h4 x hx
          omega
        · intro x hx
          have hs : stores (⟨.recv b, s.latd⟩ :: ⟨.store i b, s.latd⟩ :: ext) =
              (i, b) :: stores ext := rfl
          rw [hs] at hx
          rcases List.mem_cons.1 hx with rfl | hx
          · exact Nat.le_refl _
          · have := h4 x hx
            omega
        · intro data' s' h
          rw [hrun] at h
          obtain ⟨h6, h7⟩ := h5 data' s' h
          have hs : stores (⟨.recv b, s.latd⟩ :: ⟨.store i b, s.latd⟩ :: ext) =
              (i, b) :: stores ext := rfl
          refine ⟨?_, ?_⟩
          · intro j hj
            rw [h6 j (by omega)]
            simp; omega
          · intro j hj1 hj2
            rw [hs]
            by_cases hji : j = i
            · subst hji
              have : data' j = b := by rw [h6 j (by omega)]; simp
              rw [this]
              exact List.mem_cons_self _ _
            · exact List.mem_cons_of_mem _ (h7 j (by omega) (by omega))
      · refine ⟨[⟨.recv b, s.latd⟩], ?_, rfl, by simp [stores], by simp [stores], ?_⟩
        · simp [collectLoop, hrx, storeData, hi, Res.hw]
        · intro data' s' h
          simp [collectLoop, hrx, storeData, hi] at h

/-- What the dispatch loop adds to the trace: no store, and reads of the current
values of entries below `2 (i + k)`. -/
theorem dispatchLoop_accesses_B :
    ∀ (k i : Nat) (data : Buf) (s : HW),
      ∃ ext, (dispatchLoop k i data s).hw.trace = s.trace ++ ext ∧ stores ext = [] ∧
        ∀ x ∈ loads ext, x.2 = data x.1 ∧ x.1 < 2 * (i + k) := by
  intro k
  induction k with
  | zero =>
    intro i data s
    exact ⟨[], by simp [dispatchLoop, Res.hw], rfl, by simp⟩
  | succ k ih =>
    intro i data s
    by_cases h1 : 2 * i < dataSize
    · by_cases h2 : 2 * i + 1 < dataSize
      · obtain ⟨ext, e1, e2, e3⟩ := ih (i + 1) data
          (SPI_ByteWrite i 0x40 GPIOB (data (2 * i + 1))
            (log (.load (2 * i + 1) (data (2 * i + 1)))
              (SPI_ByteWrite i 0x40 GPIOA (data (2 * i))
                (log (.load (2 * i) (data (2 * i))) s))))
        refine ⟨[⟨.load (2 * i) (data (2 * i)), s.latd⟩] ++
            writeObs i 0x40 GPIOA (data (2 * i)) s.latd ++
            [⟨.load (2 * i + 1) (data (2 * i + 1)), idle⟩] ++
            writeObs i 0x40 GPIOB (data (2 * i + 1)) idle ++ ext, ?_, ?_, ?_⟩
        · simp only [dispatchLoop, loadData, h1, h2, if_true, bind_ok]
          rw [e1]
          simp [SPI_ByteWrite_trace, SPI_ByteWrite_latd]
        · simp only [stores_append, stores_writeObs, e2, stores_cons_load, stores_nil,
            List.append_nil]
        · intro x hx
          simp only [loads_append, loads_writeObs, List.append_nil, List.mem_append,
            loads_cons_load, loads_nil, List.mem_singleton] at hx
          rcases hx with (hx | hx) | hx
          · subst hx
            exact ⟨rfl, by simp only; omega⟩
          · subst hx
            exact ⟨rfl, by simp only; omega⟩
          · obtain ⟨h3, h4⟩ := e3 x hx
            exact ⟨h3, by omega⟩
      · refine ⟨[⟨.load (2 * i) (data (2 * i)), s.latd⟩] ++
            writeObs i 0x40 GPIOA (data (2 * i)) s.latd, ?_, ?_, ?_⟩
        · simp [dispatchLoop, loadData, h1, h2, Res.hw, SPI_ByteWrite_trace]
        · simp only [stores_append, stores_writeObs, stores_cons_load, stores_nil,
            List.append_nil]
        · intro x hx
          simp only [loads_append, loads_writeObs, List.append_nil, loads_cons_load, loads_nil,
            List.mem_singleton] at hx
          subst hx
          exact ⟨rfl, by simp only; omega⟩
    · exact ⟨[], by simp [dispatchLoop, loadData, h1, Res.hw], rfl, by simp⟩

/-- The accesses to `data` in one pass through the loop body: first stores only,
at distinct indices, then reads only, each of an entry and value stored before
in this pass. -/
theorem loopBody_accesses_B (data : Buf) (hw : HW) :
    ∃ ext1 ext2, (loopBody data hw).hw.trace = hw.trace ++ ext1 ++ ext2 ∧
      loads ext1 = [] ∧ stores ext2 = [] ∧ ((stores ext1).map Prod.fst).Nodup ∧
      ∀ x ∈ loads ext2, x ∈ stores ext1 := by
  obtain ⟨c, hc1, hc2, hc3, -, hc5⟩ := collectLoop_accesses_B 16 0 data hw
  rcases h2 : collectLoop 16 0 data hw with ⟨data', s2⟩ | ⟨w, s2⟩
  · rw [h2] at hc1
    simp only [Res.hw] at hc1
    obtain ⟨-, hc6⟩ := hc5 data' s2 h2
    obtain ⟨d, hd1, hd2, hd3⟩ := dispatchLoop_accesses_B 8 0 data' s2
    refine ⟨c, d, ?_, hc2, hd2, hc3, ?_⟩
    · simp only [loopBody, h2, bind_ok, hw_bind_ok]
      rw [hd1, hc1]
    · intro x hx
      obtain ⟨hx1, hx2⟩ := hd3 x hx
      have := hc6 x.1 (Nat.zero_le _) (by omega)
      rw [← hx1] at this
      exact this
  · rw [h2] at hc1
    simp only [Res.hw] at hc1
    refine ⟨c, [], ?_, hc2, rfl, hc3, by simp⟩
    simp only [loopBody, h2, bind_stop, Res.hw]
    rw [hc1]
    simp

end TestFinal

/-- C13: in both variants and on every receive stream, `main` never accesses
`data` outside the array: every index stored to or read from is below 16, which
is at most the declared size (18 and 16), and every chip index passed to
`SPI_ByteWrite`, by `MCP_Init` or by the dispatch loop, is below 8, for which the
`switch` drives line `c` low.  In one pass through the loop body all stores come
before all reads, the stores are at distinct indices, and every read returns an
entry and value stored earlier in the same pass. -/
theorem C13_bounds_safety (fuel : Nat) (data0 data : Buf) (rx : List Nat) (s : Nat) (l : LATD)
    (hw : HW) :
    (16 ≤ Final15.dataSize ∧ 16 ≤ TestFinal.dataSize) ∧
    ((Final15.main fuel data0 (powerOn rx s l)).why ≠ some .fault ∧
      ∀ ob ∈ (Final15.main fuel data0 (powerOn rx s l)).hw.trace, ob.inBounds) ∧
    ((TestFinal.main fuel data0 (powerOn rx s l)).why ≠ some .fault ∧
      ∀ ob ∈ (TestFinal.main fuel data0 (powerOn rx s l)).hw.trace, ob.inBounds) ∧
    (∃ ext1 ext2, (Final15.loopBody fuel data hw).hw.trace = hw.trace ++ ext1 ++ ext2 ∧
      loads ext1 = [] ∧ stores ext2 = [] ∧ ((stores ext1).map Prod.fst).Nodup ∧
      ∀ x ∈ loads ext2, x ∈ stores ext1) ∧
    (∃ ext1 ext2, (TestFinal.loopBody data hw).hw.trace = hw.trace ++ ext1 ++ ext2 ∧
      loads ext1 = [] ∧ stores ext2 = [] ∧ ((stores ext1).map Prod.fst).Nodup ∧
      ∀ x ∈ loads ext2, x ∈ stores ext1) ∧
    (∀ c, c < 8 → ∀ h : HW,
      (selectChip c h).trace = h.trace ++ [⟨.lat c false, h.latd.assign c false⟩] ∧
      (selectChip c h).latd.level c = false) := by
  have kA := Final15.kept_mainLoop allInBounds_preserved fuel data0 _ (allInBounds_init rx s l)
  have kB := TestFinal.kept_mainLoop_B allInBounds_preserved fuel data0 _
    (allInBounds_init rx s l)
  refine ⟨⟨by decide, by decide⟩, ⟨kA.2, kA.1⟩, ⟨kB.2, kB.1⟩,
    Final15.loopBody_accesses fuel data hw, TestFinal.loopBody_accesses_B data hw, ?_⟩
  intro c hc h
  refine ⟨by simp [selectChip_trace, hc], ?_⟩
  rw [selectChip_latd]
  interval_cases c <;> rfl

/-! ## The bytes returned on a stream with framing errors -/

theorem seen_lt : ∀ (n : Nat) (ws : List Nat), ws.length ≤ n → Clean (seen ws) := by
  intro n
  induction n with
  | zero =>
    intro ws h
    have : ws = [] := List.length_eq_zero.mp (by omega)
    subst this
    simpa [seen] using clean_nil
  | succ n ih =>
    intro ws h
    rcases ws with _ | ⟨w, _ | ⟨w2, rest⟩⟩
    · simpa [seen] using clean_nil
    · simp only [seen]
      exact clean_cons.mpr ⟨Nat.mod_lt _ (by decide), clean_nil⟩
    · simp only [seen]
      split
      · exact clean_cons.mpr ⟨Nat.mod_lt _ (by decide),
          ih rest (by simp only [List.length_cons] at h; omega)⟩
      · exact clean_cons.mpr ⟨Nat.mod_lt _ (by decide),
          ih (w2 :: rest) (by simp only [List.length_cons] at h ⊢; omega)⟩

theorem clean_seen (ws : List Nat) : Clean (seen ws) :=
  seen_lt ws.length ws (Nat.le_refl _)

theorem seen_sublist_aux : ∀ (n : Nat) (ws : List Nat), ws.length ≤ n →
    (seen ws).Sublist (ws.map (fun w => w % 256)) := by
  intro n
  induction n with
  | zero =>
    intro ws h
    have : ws = [] := List.length_eq_zero.mp (by omega)
    subst this
    simp [seen]
  | succ n ih =>
    intro ws h
    rcases ws with _ | ⟨w, _ | ⟨w2, rest⟩⟩
    · simp [seen]
    · simp [seen]
    · simp only [seen]
      split
      · simp only [List.map_cons]
        exact List.Sublist.cons _ (List.Sublist.cons₂ _
          (ih rest (by simp only [List.length_cons] at h; omega)))
      · simp only [List.map_cons]
        have := ih (w2 :: rest) (by simp only [List.length_cons] at h ⊢; omega)
        simp only [List.map_cons] at this
        exact List.Sublist.cons₂ _ this

/-- The bytes returned are, in order, among the bytes of the characters of the
stream. -/
theorem seen_sublist (ws : List Nat) : (seen ws).Sublist (ws.map (fun w => w % 256)) :=
  seen_sublist_aux ws.length ws (Nat.le_refl _)

theorem seen_length_le (ws : List Nat) : (seen ws).length ≤ ws.length := by
  have := (seen_sublist ws).length_le
  simpa using this

/-- On a stream without framing error every byte is returned. -/
theorem seen_clean : ∀ (ws : List Nat), Clean ws → seen ws = ws := by
  intro ws
  induction ws with
  | nil => intro _; rfl
  | cons w ws ih =>
    intro h
    obtain ⟨hw, hws⟩ := clean_cons.mp h
    cases ws with
    | nil => simp [seen, Nat.mod_eq_of_lt hw]
    | cons w2 rest =>
      have hn : ¬ 256 ≤ w := by omega
      simp only [seen, hn, if_false, Nat.mod_eq_of_lt hw]
      rw [ih hws]

/-- What follows an occurrence of `x` in a sublist is among what follows the first
occurrence of `x` in the list. -/
theorem sublist_after_first {x : Nat} {A R : List Nat} :
    ∀ (J : List Nat), x ∉ J → (x :: A).Sublist (J ++ x :: R) → A.Sublist R := by
  intro J
  induction J with
  | nil =>
    intro _ h
    exact List.cons_sublist_cons.mp h
  | cons j J ih =>
    intro hJ h
    rw [List.cons_append] at h
    cases h with
    | cons _ h' => exact ih (fun hm => hJ (List.mem_cons_of_mem _ hm)) h'
    | cons₂ _ _ => exact absurd (List.mem_cons_self _ _) hJ

/-- A stream whose elements are, in order, among those of a stream without a
complete frame holds no complete frame either. -/
theorem noFrame_sublist {W L : List Nat} (hs : L.Sublist W) (hW : NoFrame W) : NoFrame L := by
  by_cases hL : 0x7E ∈ L
  · obtain ⟨J2, R2, e2, hJ2⟩ := List.eq_append_cons_of_mem hL
    rcases hW with h | ⟨J, R, e, hJ, hR⟩
    · exact absurd (hs.subset hL) h
    · have h1 : (0x7E :: R2).Sublist (J ++ 0x7E :: R) := by
        rw [← e]
        refine List.Sublist.trans ?_ hs
        rw [e2]
        exact List.sublist_append_right _ _
      have h2 : R2.Sublist R := sublist_after_first J hJ h1
      refine Or.inr ⟨J2, R2, e2, hJ2, ?_⟩
      rcases hR with hR | hR
      · exact Or.inl (Nat.lt_of_le_of_lt h2.length_le hR)
      · exact Or.inr (fun hm => hR ((h2.drop 16).subset hm))
  · exact Or.inl hL

/-! ## The run on a stream with framing errors and the run on the bytes returned -/

theorem sim_log (e : Event) {a b : HW} (h : Sim a b) : Sim (log e a) (log e b) := by
  obtain ⟨h1, h2, h3⟩ := h
  exact ⟨h1, h2, by simp [log, h2, h3]⟩

theorem sim_writeLATD (n : Nat) (v : Bool) {a b : HW} (h : Sim a b) :
    Sim (writeLATD n v a) (writeLATD n v b) := by
  obtain ⟨h1, h2, h3⟩ := h
  exact ⟨h1, by simp [writeLATD, log, h2], by simp [writeLATD, log, h2, h3]⟩

theorem sim_SPI_ByteWrite (c o d v : Nat) {a b : HW} (h : Sim a b) :
    Sim (SPI_ByteWrite c o d v a) (SPI_ByteWrite c o d v b) := by
  obtain ⟨h1, h2, h3⟩ := h
  refine ⟨?_, ?_, ?_⟩
  · rw [SPI_ByteWrite_rx, SPI_ByteWrite_rx, h1]
  · rw [SPI_ByteWrite_latd, SPI_ByteWrite_latd]
  · rw [SPI_ByteWrite_trace, SPI_ByteWrite_trace, h2, h3]

theorem sim_UART_Init {a b : HW} (h : Sim a b) : Sim (UART_Init a) (UART_Init b) := h

theorem sim_SPI_Init {a b : HW} (h : Sim a b) : Sim (SPI_Init a) (SPI_Init b) := by
  unfold SPI_Init
  exact sim_writeLATD _ _ (sim_writeLATD _ _ (sim_writeLATD _ _ (sim_writeLATD _ _
    (sim_writeLATD _ _ (sim_writeLATD _ _ (sim_writeLATD _ _ (sim_writeLATD _ _ h)))))))

theorem sim_MCP_Init {a b : HW} (h : Sim a b) : Sim (MCP_Init a) (MCP_Init b) := by
  unfold MCP_Init
  exact sim_SPI_ByteWrite _ _ _ _ (sim_SPI_ByteWrite _ _ _ _ (sim_SPI_ByteWrite _ _ _ _
    (sim_SPI_ByteWrite _ _ _ _ (sim_SPI_ByteWrite _ _ _ _ (sim_SPI_ByteWrite _ _ _ _
    (sim_SPI_ByteWrite _ _ _ _ (sim_SPI_ByteWrite _ _ _ _ (sim_SPI_ByteWrite _ _ _ _
    (sim_SPI_ByteWrite _ _ _ _ (sim_SPI_ByteWrite _ _ _ _ (sim_SPI_ByteWrite _ _ _ _
    (sim_SPI_ByteWrite _ _ _ _ (sim_SPI_ByteWrite _ _ _ _ (sim_SPI_ByteWrite _ _ _ _
    (sim_SPI_ByteWrite _ _ _ _ h)))))))))))))))

theorem simRes_bind {α β : Type} {r1 r2 : Res α} {f g : α → HW → Res β}
    (h : SimRes r1 r2) (hf : ∀ x a b, Sim a b → SimRes (f x a) (g x b)) :
    SimRes (r1.bind f) (r2.bind g) := by
  cases r1 <;> cases r2 <;> simp only [SimRes] at h
  · obtain ⟨rfl, h⟩ := h
    exact hf _ _ _ h
  · obtain ⟨rfl, h⟩ := h
    exact ⟨rfl, h⟩

/-- On related states `UART_Receive` returns the same byte, or blocks in both. -/
theorem sim_UART_Receive {a b : HW} (h : Sim a b) :
    SimRes (UART_Receive a) (UART_Receive b) := by
  obtain ⟨h1, h2, h3⟩ := h
  rcases UART_Receive_cases a with ⟨e0, e⟩ | ⟨x, rest, rc, e, hx, -, hs⟩
  · rw [e, UART_Receive_nil (by rw [h1, e0]; rfl)]
    exact ⟨rfl, h1, h2, h3⟩
  · rw [e, UART_Receive_cons (by rw [h1, hs]) hx]
    exact ⟨rfl, by simp [log], by simp [log, h2], by simp [log, h2, h3]⟩

theorem sim_storeData (size : Nat) (data : Buf) (i v : Nat) {a b : HW} (h : Sim a b) :
    SimRes (storeData size data i v a) (storeData size data i v b) := by
  unfold storeData
  split
  · exact ⟨rfl, sim_log _ h⟩
  · exact ⟨rfl, h⟩

theorem sim_loadData (size : Nat) (data : Buf) (i : Nat) {a b : HW} (h : Sim a b) :
    SimRes (loadData size data i a) (loadData size data i b) := by
  unfold loadData
  split
  · exact ⟨rfl, sim_log _ h⟩
  · exact ⟨rfl, h⟩

namespace Final15

theorem sim_awaitByte (m : Nat) :
    ∀ (fuel : Nat) (a b : HW), Sim a b → SimRes (awaitByte m fuel a) (awaitByte m fuel b) := by
  intro fuel
  induction fuel with
  | zero => intro a b h; exact ⟨rfl, h⟩
  | succ n ih =>
    intro a b h
    simp only [awaitByte]
    refine simRes_bind (sim_UART_Receive h) ?_
    intro x a' b' h'
    split
    · exact ih a' b' h'
    · exact ⟨rfl, h'⟩

theorem sim_collectLoop :
    ∀ (k i : Nat) (data : Buf) (a b : HW), Sim a b →
      SimRes (collectLoop k i data a) (collectLoop k i data b) := by
  intro k
  induction k with
  | zero => intro i data a b h; exact ⟨rfl, h⟩
  | succ k ih =>
    intro i data a b h
    simp only [collectLoop]
    refine simRes_bind (sim_UART_Receive h) ?_
    intro x a' b' h'
    refine simRes_bind (sim_storeData _ _ _ _ h') ?_
    intro d a2 b2 h2
    exact ih _ _ _ _ h2

theorem sim_dispatchLoop :
    ∀ (k i : Nat) (data : Buf) (a b : HW), Sim a b →
      SimRes (dispatchLoop k i data a) (dispatchLoop k i data b) := by
  intro k
  induction k with
  | zero => intro i data a b h; exact ⟨rfl, h⟩
  | succ k ih =>
    intro i data a b h
    simp only [dispatchLoop]
    refine simRes_bind (sim_loadData _ _ _ h) ?_
    intro x a' b' h'
    refine simRes_bind (sim_loadData _ _ _ (sim_SPI_ByteWrite _ _ _ _ h')) ?_
    intro y a2 b2 h2
    exact ih _ _ _ _ (sim_SPI_ByteWrite _ _ _ _ h2)

theorem sim_loopBody (fuel : Nat) (data : Buf) {a b : HW} (h : Sim a b) :
    SimRes (loopBody fuel data a) (loopBody fuel data b) := by
  unfold loopBody
  refine simRes_bind (sim_awaitByte _ _ _ _ h) ?_
  intro _ a1 b1 h1
  refine simRes_bind (sim_collectLoop _ _ _ _ _ h1) ?_
  intro d a2 b2 h2
  refine simRes_bind (sim_awaitByte _ _ _ _ h2) ?_
  intro _ a3 b3 h3
  refine simRes_bind (sim_dispatchLoop _ _ _ _ _ h3) ?_
  intro _ a4 b4 h4
  exact ⟨rfl, h4⟩

theorem sim_mainLoop :
    ∀ (fuel : Nat) (data : Buf) (a b : HW), Sim a b →
      SimRes (mainLoop fuel data a) (mainLoop fuel data b) := by
  intro fuel
  induction fuel with
  | zero => intro data a b h; exact ⟨rfl, h⟩
  | succ n ih =>
    intro data a b h
    simp only [mainLoop]
    refine simRes_bind (sim_loopBody _ _ h) ?_
    intro d a1 b1 h1
    exact ih _ _ _ h1

/-- The run of variant A on a stream and its run on the bytes that `UART_Receive`
returns on that stream, each received correctly, stop in the same way with the
same trace. -/
theorem main_seen (fuel : Nat) (data0 : Buf) (rx : List Nat) (s : Nat) (l : LATD) :
    (main fuel data0 (powerOn rx s l)).why = (main fuel data0 (powerOn (seen rx) s l)).why ∧
    (main fuel data0 (powerOn rx s l)).hw.trace =
      (main fuel data0 (powerOn (seen rx) s l)).hw.trace := by
  have h0 : Sim (powerOn rx s l) (powerOn (seen rx) s l) := ⟨rfl, rfl, rfl⟩
  have h := sim_mainLoop fuel data0 _ _ (sim_MCP_Init (sim_SPI_Init (sim_UART_Init h0)))
  show (mainLoop fuel data0 _).why = (mainLoop fuel data0 _).why ∧
    (mainLoop fuel data0 _).hw.trace = (mainLoop fuel data0 _).hw.trace
  revert h
  generalize mainLoop fuel data0 (MCP_Init (SPI_Init (UART_Init (powerOn rx s l)))) = r1
  generalize mainLoop fuel data0 (MCP_Init (SPI_Init (UART_Init (powerOn (seen rx) s l)))) = r2
  intro h
  cases r1 <;> cases r2 <;> simp only [SimRes] at h
  · exact ⟨rfl, h.2.2.2.symm⟩
  · obtain ⟨rfl, h⟩ := h
    exact ⟨rfl, h.2.2.symm⟩

end Final15

namespace Final15

/-- Variant A on a stream on which `UART_Receive` returns the bytes of exactly one
envelope. -/
theorem main_one_frame_seen (rx J P G : List Nat) (fuel : Nat) (data0 : Buf) (s : Nat)
    (l : LATD) (hs : seen rx = J ++ 0x7E :: (P ++ (G ++ [0x7F])))
    (hJ : 0x7E ∉ J) (hP : P.length = 16) (hG : 0x7F ∉ G) (hf : rx.length < fuel) :
    (main fuel data0 (powerOn rx s l)).why = some .stall ∧
    calls (main fuel data0 (powerOn rx s l)).hw.trace =
      initWrites ++ payloadWrites (fun j => P.getD j 0) := by
  obtain ⟨sw, st⟩ := main_seen fuel data0 rx s l
  have hc := clean_seen rx
  rw [hs] at hc
  obtain ⟨hcJ, hc1⟩ := clean_append.1 hc
  obtain ⟨hcP, hc2⟩ := clean_append.1 (clean_cons.1 hc1).2
  obtain ⟨hcG, -⟩ := clean_append.1 hc2
  have hlen : (J ++ 0x7E :: (P ++ (G ++ [0x7F]))).length < fuel := by
    rw [← hs]
    exact Nat.lt_of_le_of_lt (seen_length_le rx) hf
  obtain ⟨w1, c1⟩ := main_one_frame J P G fuel data0 s l hJ hP hG hlen hcJ hcP hcG
  rw [← hs, ← sw] at w1
  rw [← hs, ← st] at c1
  exact ⟨w1, c1⟩

/-- Variant A on a stream on which the bytes that `UART_Receive` returns hold no
complete frame. -/
theorem main_noFrame_seen (rx : List Nat) (fuel : Nat) (data0 : Buf) (s : Nat) (l : LATD)
    (hn : NoFrame (seen rx)) (hf : rx.length < fuel) :
    (main fuel data0 (powerOn rx s l)).why = some .stall ∧
    calls (main fuel data0 (powerOn rx s l)).hw.trace = initWrites := by
  obtain ⟨sw, st⟩ := main_seen fuel data0 rx s l
  obtain ⟨hr, -, hc⟩ := init_state (seen rx) s l
  obtain ⟨hw', e, c⟩ :=
    mainLoop_stall fuel data0 (MCP_Init (SPI_Init (UART_Init (powerOn (seen rx) s l))))
      (by rw [hr]; exact hn) (by rw [hr]; exact Nat.lt_of_le_of_lt (seen_length_le rx) hf)
      (by rw [hr]; exact clean_seen rx)
  constructor
  · rw [sw]
    show (mainLoop fuel data0 _).why = _
    rw [e]; rfl
  · rw [st]
    show calls (mainLoop fuel data0 _).hw.trace = _
    rw [e]; simp only [Res.hw]; rw [c, hc]

end Final15

namespace TestFinal

end TestFinal

/-- C6, as stated, fails in two ways.  On the stream `7E 01 .. 10 00 7F` the
payload `01 .. 10` is dispatched although in the stream it is followed by `00`,
not by the end marker, so that `7E 01 .. 10 7F` does not occur in the stream.  On
the stream `7E 01 02 03 .. 11 7F` whose character `02` has a framing error the
sixteen bytes `01 03 04 .. 11` are dispatched, which do not occur in the stream
as a contiguous run. -/
theorem C6_counterexample :
    (dataWrites (Final15.main 20 (fun _ => 0) (powerOn ([0x7E] ++
        [1, 2, 3, 4, 5, 6, 7, 8, 9, 10, 11, 12, 13, 14, 15, 16] ++ [0x00, 0x7F]) 0 idle)).hw.trace =
      payloadWrites (fun j => [1, 2, 3, 4, 5, 6, 7, 8, 9, 10, 11, 12, 13, 14, 15, 16].getD j 0) ∧
    ¬ ([0x7E] ++ [1, 2, 3, 4, 5, 6, 7, 8, 9, 10, 11, 12, 13, 14, 15, 16] ++ [0x7F]) <:+:
      ([0x7E] ++ [1, 2, 3, 4, 5, 6, 7, 8, 9, 10, 11, 12, 13, 14, 15, 16] ++ [0x00, 0x7F])) ∧
    (dataWrites (Final15.main 20 (fun _ => 0) (powerOn
        [0x7E, 1, 0x102, 3, 4, 5, 6, 7, 8, 9, 10, 11, 12, 13, 14, 15, 16, 17, 0x7F]
        0 idle)).hw.trace =
      payloadWrites (fun j => [1, 3, 4, 5, 6, 7, 8, 9, 10, 11, 12, 13, 14, 15, 16, 17].getD j 0) ∧
    ¬ [1, 3, 4, 5, 6, 7, 8, 9, 10, 11, 12, 13, 14, 15, 16, 17] <:+:
      [0x7E, 1, 0x102, 3, 4, 5, 6, 7, 8, 9, 10, 11, 12, 13, 14, 15, 16, 17, 0x7F].map
        (fun w => w % 256)) := by
  have h1 := Final15.main_one_frame_seen ([0x7E] ++
    [1, 2, 3, 4, 5, 6, 7, 8, 9, 10, 11, 12, 13, 14, 15, 16] ++ [0x00, 0x7F]) []
    [1, 2, 3, 4, 5, 6, 7, 8, 9, 10, 11, 12, 13, 14, 15, 16] [0x00] 20 (fun _ => 0) 0 idle
    (by decide) (by decide) rfl (by decide) (by decide)
  have h2 := Final15.main_one_frame_seen
    [0x7E, 1, 0x102, 3, 4, 5, 6, 7, 8, 9, 10, 11, 12, 13, 14, 15, 16, 17, 0x7F] []
    [1, 3, 4, 5, 6, 7, 8, 9, 10, 11, 12, 13, 14, 15, 16, 17] [] 20 (fun _ => 0) 0 idle
    (by decide) (by decide) rfl (by decide) (by decide)
  have d1 := dataWrites_of_calls h1.2
  have d2 := dataWrites_of_calls h2.2
  rw [dataWrites_payloadWrites] at d1 d2
  exact ⟨⟨d1, by decide⟩, d2, by decide⟩

/-- C6, amended: with enough fuel, a stream received without framing error and
read by variant A splits into envelopes
`junk ++ [0x7E] ++ payload ++ gap ++ [0x7F]` (no `0x7E` in the junk, sixteen
payload bytes, no `0x7F` in the gap) followed by a tail that holds no complete
frame, and the data-register writes are exactly the dispatches of the payloads of
these envelopes, in order.  So every dispatched payload stands in the stream
right after a start marker and before an end marker that follows it after a gap
of discarded bytes, and no byte outside the payloads is written. -/
theorem C6_variantA_frame_invariant (rx : List Nat) (fuel : Nat) (data0 : Buf) (s : Nat)
    (l : LATD) (hcl : ∀ w ∈ rx, w < 256) (hf : rx.length < fuel) :
    ∃ (fs : List Envelope) (tail : List Nat),
      rx = fs.flatMap Envelope.bytes ++ tail ∧
      (∀ f ∈ fs, 0x7E ∉ f.junk ∧ f.payload.length = 16 ∧ 0x7F ∉ f.gap) ∧
      NoFrame tail ∧
      dataWrites (Final15.main fuel data0 (powerOn rx s l)).hw.trace =
        fs.flatMap fun f => payloadWrites (fun j => f.payload.getD j 0) := by
  obtain ⟨fs, tail, -, r, w, t, c⟩ := Final15.main_parse fuel data0 rx s l hf hcl
  refine ⟨fs, tail, r, w, t, ?_⟩
  rw [dataWrites_of_calls c, filter_flatMap_payloadWrites]

/-- C6 amended, witness: junk, a frame with a gap, and an incomplete frame. -/
theorem C6_variantA_frame_invariant_witness :
    ∃ (fs : List Envelope) (tail : List Nat),
      [0x55, 0x7E, 1, 2, 3, 4, 5, 6, 7, 8, 9, 10, 11, 12, 13, 14, 15, 16, 0x00, 0x7F, 0x7E, 0x01] =
        fs.flatMap Envelope.bytes ++ tail ∧
      (∀ f ∈ fs, 0x7E ∉ f.junk ∧ f.payload.length = 16 ∧ 0x7F ∉ f.gap) ∧
      NoFrame tail ∧
      dataWrites (Final15.main 23 (fun _ => 0) (powerOn
        [0x55, 0x7E, 1, 2, 3, 4, 5, 6, 7, 8, 9, 10, 11, 12, 13, 14, 15, 16, 0x00, 0x7F, 0x7E, 0x01]
        0 idle)).hw.trace =
        fs.flatMap fun f => payloadWrites (fun j => f.payload.getD j 0) :=
  C6_variantA_frame_invariant _ 23 (fun _ => 0) 0 idle (by decide) (by decide)

/-- C10: on a finite stream of characters, received with or without framing
errors, whose bytes hold no complete frame (no `0x7E`, or fewer than sixteen
bytes after the first `0x7E`, or no `0x7F` after the sixteen bytes that follow the
first `0x7E`), variant A ends up blocked in `UART_Receive` having made the sixteen
initialisation writes and no other SPI write, in particular no write to a data
register. -/
theorem C10_variantA_stalls (rx : List Nat) (fuel : Nat) (data0 : Buf) (s : Nat) (l : LATD)
    (h : 0x7E ∉ rx.map (fun w => w % 256) ∨
      ∃ J R, rx.map (fun w => w % 256) = J ++ 0x7E :: R ∧ 0x7E ∉ J ∧
        (R.length < 16 ∨ 0x7F ∉ R.drop 16))
    (hf : rx.length < fuel) :
    (Final15.main fuel data0 (powerOn rx s l)).why = some .stall ∧
    calls (Final15.main fuel data0 (powerOn rx s l)).hw.trace = initWrites ∧
    dataWrites (Final15.main fuel data0 (powerOn rx s l)).hw.trace = [] := by
  obtain ⟨w, c⟩ := Final15.main_noFrame_seen rx fuel data0 s l
    (noFrame_sublist (seen_sublist rx) h) hf
  refine ⟨w, c, ?_⟩
  rw [dataWrites, c]
  exact dataWrites_initWrites

/-- C10, witness: a start marker, sixteen characters of which the first has a
framing error, and then characters among which no end marker occurs. -/
theorem C10_variantA_stalls_witness :
    (Final15.main 30 (fun _ => 0) (powerOn
      [0x7E, 0x101, 2, 3, 4, 5, 6, 7, 8, 9, 10, 11, 12, 13, 14, 15, 16, 0x7E, 0x00]
      0 idle)).why = some .stall ∧
    calls (Final15.main 30 (fun _ => 0) (powerOn
      [0x7E, 0x101, 2, 3, 4, 5, 6, 7, 8, 9, 10, 11, 12, 13, 14, 15, 16, 0x7E, 0x00]
      0 idle)).hw.trace = initWrites ∧
    dataWrites (Final15.main 30 (fun _ => 0) (powerOn
      [0x7E, 0x101, 2, 3, 4, 5, 6, 7, 8, 9, 10, 11, 12, 13, 14, 15, 16, 0x7E, 0x00]
      0 idle)).hw.trace = [] :=
  C10_variantA_stalls _ 30 (fun _ => 0) 0 idle
    (Or.inr ⟨[], [1, 2, 3, 4, 5, 6, 7, 8, 9, 10, 11, 12, 13, 14, 15, 16, 0x7E, 0x00], by decide,
      by decide, Or.inr (by decide)⟩) (by decide)

end Harness
